import Mathlib

/-
Verification of the shapelet generation and application kernels of
`convst/transformers/_multivariate_same_length.py`.

Shallow embedding conventions:
* A multivariate series tensor is a list of samples, each a list of channels,
  each a list of rational values.  Real/float values are modelled by ℚ.
* The numpy global random generator (seeded once by `seed(r_seed)`) is
  modelled by a `RandOracle`: a bundle of deterministic draw functions,
  one per draw site, indexed by the shapelet number.  A concrete oracle
  derived from an integer seed (`mkOracle`) instantiates it, so the whole
  pipeline is a deterministic function of the seed and the inputs.
* Fallible numpy operations are modelled in `Except String`:
  the only raising operation reachable in `M_SL_generate_shapelet` is
  `choice(arange(n_features), n_channels, replace=False)`, which raises
  when asked for more distinct channels than exist.
* Functions of `convst/transformers/_commons.py` (not part of the sources)
  are modelled from the spec and are marked `Modelled from the spec:` in
  their doc comment.
-/

abbrev SeriesTensor := List (List (List ℚ))

/-- Write the elements of `sub` into `l` starting at position `off`
(models a numpy slice assignment `l[off:off+len(sub)] = sub`). -/
def writeSlice {α : Type} (l : List α) (off : ℕ) (sub : List α) : List α :=
  match sub with
  | [] => l
  | x :: xs => writeSlice (l.set off x) (off + 1) xs

/-- Python slice-stop semantics for `x[:stop]` on a list of length `T`:
a negative stop counts from the end, a stop beyond `T` is capped. -/
def sliceStop (T : ℕ) (stop : ℤ) : ℕ :=
  if stop < 0 then T - (-stop).toNat else min stop.toNat T

/-- Insert `x` into a sorted list, keeping it sorted ascending. -/
def insertSorted (x : ℕ) : List ℕ → List ℕ
  | [] => [x]
  | a :: as => if x ≤ a then x :: a :: as else a :: insertSorted x as

/-- Sort ascending by repeated insertion. -/
def sortAsc (l : List ℕ) : List ℕ := l.foldr insertSorted []

/-- Model of `numpy.unique`: the sorted list of distinct elements. -/
def sortedNub (l : List ℕ) : List ℕ := (sortAsc l).dedup

/-- Index of the first occurrence of `x` in `l` (0 when absent). -/
def idxOf (l : List ℕ) (x : ℕ) : ℕ :=
  match l with
  | [] => 0
  | a :: as => if a = x then 0 else idxOf as x + 1

/-- Contiguous slice `l[off : off+len]` as numpy basic slicing would read it. -/
def sliceArr {α : Type} (l : List α) (off len : ℕ) : List α :=
  (l.drop off).take len

/-- Reshape a flat buffer into `rows` rows of `cols` entries (row-major). -/
def reshapeRows (l : List ℚ) (rows cols : ℕ) : List (List ℚ) :=
  (List.range rows).map (fun r => sliceArr l (r * cols) cols)

/-- Arithmetic mean of a list of rationals (`numpy.mean`). -/
def listMean (v : List ℚ) : ℚ := v.sum / (v.length : ℚ)

/-- Standard deviation of a list of rationals (`numpy.std`); the square root
of the mean squared deviation is taken through the parameter `sqrt'`,
since the source computes it in floating point. -/
def listStd (sqrt' : ℚ → ℚ) (v : List ℚ) : ℚ :=
  sqrt' (listMean (v.map (fun x => (x - listMean v) ^ 2)))

/-- Z-normalization with the additive epsilon 1e-8 of the source:
`(v - mean(v)) / (std(v) + 1e-8)`. -/
def znormEps (sqrt' : ℚ → ℚ) (v : List ℚ) : List ℚ :=
  v.map (fun x => (x - listMean v) / (listStd sqrt' v + 1 / 100000000))

/-- Modelled from the spec: `get_subsequence` of
`convst/transformers/_commons.py` (the file is not under `src/`).
Spec 4.1: `v[k] = series[(s + k*d) mod T]` when phase invariance is enabled,
else `v[k] = series[s + k*d]`; when the normalization flag is set the window
is z-normalized with a small additive epsilon before being returned. -/
def get_subsequence (sqrt' : ℚ → ℚ) (series : List ℚ) (s L d : ℕ)
    (norm use_phase : Bool) : List ℚ :=
  let v := (List.range L).map (fun k =>
    if use_phase then series.getD ((s + k * d) % series.length) 0
    else series.getD (s + k * d) 0)
  if norm then znormEps sqrt' v else v

/-- Offset array for the flattened `values` buffer:
`concatenate((zeros(1), cumsum(n_channels * lengths)))`
(computed identically at line 130 of `M_SL_generate_shapelet` and
line 223 of `M_SL_apply_all_shapelets`). -/
def M_SL_offsets_values (n_channels lengths : List ℕ) : List ℕ :=
  List.scanl (· + ·) 0 (List.zipWith (· * ·) n_channels lengths)

/-- Offset array for the flattened `channel_ids` buffer:
`concatenate((zeros(1), cumsum(n_channels)))`
(line 131 of `M_SL_generate_shapelet`, line 225 of
`M_SL_apply_all_shapelets`). -/
def M_SL_offsets_channels (n_channels : List ℕ) : List ℕ :=
  List.scanl (· + ·) 0 n_channels

/-- The availability test of line 146,
`mask_dil[:, :, :d_shape].sum(axis=1) >= n_channels * alpha`,
for one `(sample, position)` cell: `count ≥ n_channels * alpha`.
It is written as the equivalent integer comparison on the numerator and
denominator of the rational `alpha` so that the predicate kernel-computes;
`alphaCond_iff` proves it equal to the rational inequality. -/
def alphaCond (alpha : ℚ) (nc count : ℕ) : Bool :=
  decide (alpha.num * (nc : ℤ) ≤ (count : ℤ) * (alpha.den : ℤ))

/-- Number of channels still available at `(sample s, position t)` in a
per-dilation occupancy slice `mask_dil` (the `sum(axis=1)` of line 146). -/
def countAvail (maskDil : List (List (List Bool))) (n_features s t : ℕ) : ℕ :=
  ((List.range n_features).filter
    (fun c => ((maskDil.getD s []).getD c []).getD t false)).length

/-- Deterministic model of the numpy global random generator after
`seed(r_seed)`: one draw function per draw site of the generation phase,
indexed by the shapelet number.  `RandOracle.WF` states the ranges that the
corresponding numpy draws always satisfy. -/
structure RandOracle where
  lenIdx : ℕ → ℕ
  dil : ℕ → ℕ
  normBit : ℕ → Bool
  nChanDraw : ℕ → ℕ
  candIdx : ℕ → ℕ
  posIdx : ℕ → ℕ
  chanList : ℕ → List ℕ

/-- Ranges guaranteed by the numpy draws:
`choice(shapelet_sizes)` returns an index into the size set,
`choice(max_channels)` a value below `max_channels`, and
`choice(arange(n_features), k, replace=False)` (when it does not raise)
`k` distinct channel indices below `n_features`. -/
def RandOracle.WF (ora : RandOracle) (shapelet_sizes : List ℕ)
    (max_channels n_features : ℕ) : Prop :=
  (∀ i, ora.lenIdx i < shapelet_sizes.length) ∧
  (∀ i, ora.nChanDraw i < max_channels) ∧
  (∀ i, ora.nChanDraw i + 1 ≤ n_features →
    (ora.chanList i).length = ora.nChanDraw i + 1 ∧
    (ora.chanList i).Nodup ∧
    ∀ c ∈ ora.chanList i, c < n_features)

/-- Shapelet lengths (line 67): `choice(shapelet_sizes, size=n_shapelets)`. -/
def M_SL_lengths (ora : RandOracle) (n_shapelets : ℕ)
    (shapelet_sizes : List ℕ) : List ℕ :=
  (List.range n_shapelets).map (fun i => shapelet_sizes.getD (ora.lenIdx i) 0)

/-- Shapelet dilations (lines 70-83).  The floating-point draw
(`floor(2 ** uniform(0, log2((n_timestamps-1) // (lengths-1))))`, or the
log-biased prime draw under the prime scheme) is abstracted behind the
oracle; `M_SL_dilation_in_bounds` proves the range the non-prime formula
guarantees for every possible uniform draw. -/
def M_SL_dilations (ora : RandOracle) (n_shapelets : ℕ) : List ℕ :=
  (List.range n_shapelets).map ora.dil

/-- Normalization indicators (lines 101-102): `random(n) < p_norm`. -/
def M_SL_normalize_flags (ora : RandOracle) (n_shapelets : ℕ) : List Bool :=
  (List.range n_shapelets).map ora.normBit

/-- Channel counts (line 89): `choice(max_channels, size=n_shapelets) + 1`. -/
def M_SL_n_channels (ora : RandOracle) (n_shapelets : ℕ) : List ℕ :=
  (List.range n_shapelets).map (fun i => ora.nChanDraw i + 1)

/-- Threshold array (line 86): `zeros(n_shapelets)`. -/
def M_SL_threshold (n_shapelets : ℕ) : List ℚ := List.replicate n_shapelets 0

/-- Flattened channel-id buffer (line 91): `zeros(n_channels.sum())`. -/
def M_SL_channel_ids_init (ora : RandOracle) (n_shapelets : ℕ) : List ℕ :=
  List.replicate (M_SL_n_channels ora n_shapelets).sum 0

/-- Flattened values buffer (lines 94-98): `zeros(dot(lengths, n_channels))`. -/
def M_SL_values_init (ora : RandOracle) (n_shapelets : ℕ)
    (shapelet_sizes : List ℕ) : List ℚ :=
  List.replicate
    (List.zipWith (· * ·) (M_SL_lengths ora n_shapelets shapelet_sizes)
      (M_SL_n_channels ora n_shapelets)).sum (0 : ℚ)

/-- Embedding of `M_SL_init_random_shapelet_params` (lines 28-104): returns
`(values, lengths, dilations, threshold, normalize, n_channels, channel_ids)`.
`n_timestamps`, `p_norm` and `prime_scheme` only shape the random draws,
which the oracle abstracts. -/
def M_SL_init_random_shapelet_params (ora : RandOracle) (n_shapelets : ℕ)
    (shapelet_sizes : List ℕ) (n_timestamps : ℕ) (p_norm : ℚ)
    (max_channels : ℕ) (prime_scheme : Bool) :
    List ℚ × List ℕ × List ℕ × List ℚ × List Bool × List ℕ × List ℕ :=
  (M_SL_values_init ora n_shapelets shapelet_sizes,
   M_SL_lengths ora n_shapelets shapelet_sizes,
   M_SL_dilations ora n_shapelets,
   M_SL_threshold n_shapelets,
   M_SL_normalize_flags ora n_shapelets,
   M_SL_n_channels ora n_shapelets,
   M_SL_channel_ids_init ora n_shapelets)

/-- The sampled parameters and tensor geometry used by the generation loop. -/
structure GenParams where
  lengths : List ℕ
  dilations : List ℕ
  normalize : List Bool
  n_channels : List ℕ
  alpha : ℚ
  use_phase : Bool
  n_samples : ℕ
  n_features : ℕ
  n_timestamps : ℕ

def GenParams.lenAt (P : GenParams) (i : ℕ) : ℕ := P.lengths.getD i 0

def GenParams.dilAt (P : GenParams) (i : ℕ) : ℕ := P.dilations.getD i 0

def GenParams.normAt (P : GenParams) (i : ℕ) : Bool := P.normalize.getD i false

def GenParams.ncAt (P : GenParams) (i : ℕ) : ℕ := P.n_channels.getD i 0

/-- Candidate-range size of line 142:
`n_timestamps if use_phase else n_timestamps - (length - 1) * dilation`,
as the signed integer the int64 computation produces. -/
def GenParams.dShape (P : GenParams) (i : ℕ) : ℤ :=
  if P.use_phase then (P.n_timestamps : ℤ)
  else (P.n_timestamps : ℤ) - ((P.lenAt i : ℤ) - 1) * (P.dilAt i : ℤ)

/-- Number of candidate start positions actually scanned: the python slice
`mask_dil[:, :, :d_shape]` on a T-long axis. -/
def GenParams.stopAt (P : GenParams) (i : ℕ) : ℕ :=
  sliceStop P.n_timestamps (P.dShape i)

/-- Admissible `(sample, start_position)` pairs of lines 146:
`where(mask_dil[:, :, :d_shape].sum(axis=1) >= n_channels * alpha)`,
in numpy's row-major order. -/
def candidatePairs (maskDil : List (List (List Bool))) (P : GenParams)
    (i : ℕ) : List (ℕ × ℕ) :=
  (List.range P.n_samples).flatMap (fun s =>
    ((List.range (P.stopAt i)).filter (fun t =>
      alphaCond P.alpha (P.ncAt i) (countAvail maskDil P.n_features s t))).map
      (fun t => (s, t)))

/-- Mutable state of the generation loop: the two flattened output buffers,
the two provenance arrays, the admissibility occupancy structure
`mask_sampling` of line 127 and the `mask_return` array of line 128. -/
structure GenState where
  values : List ℚ
  channel_ids : List ℕ
  id_samples : List ℕ
  start_positions : List ℕ
  mask_sampling : List (List (List (List (List Bool))))
  mask_return : List Bool

/-- Occupancy structure of line 127:
`ones((2, n_unique_dil, n_samples, n_features, n_timestamps), dtype=bool)`. -/
def initMask (n_unique_dil n_samples n_features n_timestamps : ℕ) :
    List (List (List (List (List Bool)))) :=
  List.replicate 2 (List.replicate n_unique_dil (List.replicate n_samples
    (List.replicate n_features (List.replicate n_timestamps true))))

/-- The per-`(normalization, dilation-group)` occupancy slice
`mask_sampling[norm, i_d]` of line 143. -/
def maskDilOf (st : GenState) (norm : Bool) (i_d : ℕ) :
    List (List (List Bool)) :=
  (st.mask_sampling.getD (if norm then 1 else 0) []).getD i_d []

/-- One iteration of the inner loop of `M_SL_generate_shapelet`
(lines 136-167) for shapelet `i_shp = i`.  When the candidate set is empty
the state is returned unchanged (the shapelet is skipped); the channel draw
`choice(arange(n_features), n_channels, replace=False)` raises when
`n_channels > n_features`. -/
def processShapelet (sqrt' : ℚ → ℚ) (ora : RandOracle) (P : GenParams)
    (X : SeriesTensor) (uniq a1 a2 : List ℕ) (st : GenState) (i : ℕ) :
    Except String GenState :=
  let d := P.dilAt i
  let norm := P.normAt i
  let maskDil := maskDilOf st norm (idxOf uniq d)
  let cands := candidatePairs maskDil P i
  if 0 < cands.length then
    let id_sample := (cands.getD (ora.candIdx i % cands.length) (0, 0)).1
    let posList := (cands.filter (fun q => q.1 == id_sample)).map (fun q => q.2)
    let start_position := posList.getD (ora.posIdx i % posList.length) 0
    if P.ncAt i ≤ P.n_features then
      let chans := ora.chanList i
      let vals := (chans.map (fun c =>
        get_subsequence sqrt' ((X.getD id_sample []).getD c [])
          start_position (P.lenAt i) d norm P.use_phase)).flatten
      Except.ok { st with
        values := writeSlice st.values (a1.getD i 0) vals,
        channel_ids := writeSlice st.channel_ids (a2.getD i 0) chans,
        id_samples := st.id_samples.set i id_sample,
        start_positions := st.start_positions.set i start_position }
    else Except.error "cannot take a larger sample than population"
  else Except.ok st

/-- Iteration order of the generation loop (lines 133-136): shapelets are
processed grouped by dilation, following `unique(dilations)`. -/
def groupedIndices (dilations : List ℕ) : List ℕ :=
  (sortedNub dilations).flatMap (fun d =>
    (List.range dilations.length).filter (fun i => dilations.getD i 0 == d))

/-- The sampled parameters of one `M_SL_generate_shapelet` run. -/
def M_SL_params (ora : RandOracle) (X : SeriesTensor) (n_shapelets : ℕ)
    (shapelet_sizes : List ℕ) (alpha : ℚ) (use_phase : Bool) : GenParams :=
  { lengths := M_SL_lengths ora n_shapelets shapelet_sizes
    dilations := M_SL_dilations ora n_shapelets
    normalize := M_SL_normalize_flags ora n_shapelets
    n_channels := M_SL_n_channels ora n_shapelets
    alpha := alpha
    use_phase := use_phase
    n_samples := X.length
    n_features := (X.headD []).length
    n_timestamps := ((X.headD []).headD []).length }

/-- State of the generation loop before any shapelet is processed
(lines 123-131). -/
def M_SL_init_state (ora : RandOracle) (X : SeriesTensor) (n_shapelets : ℕ)
    (shapelet_sizes : List ℕ) : GenState :=
  { values := M_SL_values_init ora n_shapelets shapelet_sizes
    channel_ids := M_SL_channel_ids_init ora n_shapelets
    id_samples := List.replicate n_shapelets 0
    start_positions := List.replicate n_shapelets 0
    mask_sampling :=
      initMask (sortedNub (M_SL_dilations ora n_shapelets)).length X.length
        (X.headD []).length ((X.headD []).headD []).length
    mask_return := List.replicate n_shapelets true }

/-- Embedding of `M_SL_generate_shapelet` (lines 107-171), with the final
loop state kept observable: returns the final `GenState` together with
`(lengths, dilations, threshold, normalize, n_channels)`.  The `r_seed`
parameter of the source is the seed the oracle is derived from
(see `M_SL_generate_seeded`); `y`, `p_min` and `p_max` are accepted and
ignored exactly as the source ignores them. -/
def M_SL_generate_full (sqrt' : ℚ → ℚ) (ora : RandOracle) (X : SeriesTensor)
    (y : List ℕ) (n_shapelets : ℕ) (shapelet_sizes : List ℕ)
    (p_norm p_min p_max alpha : ℚ) (use_phase : Bool) (max_channels : ℕ)
    (prime_scheme : Bool) :
    Except String (GenState × List ℕ × List ℕ × List ℚ × List Bool × List ℕ) :=
  let P := M_SL_params ora X n_shapelets shapelet_sizes alpha use_phase
  let a1 := M_SL_offsets_values P.n_channels P.lengths
  let a2 := M_SL_offsets_channels P.n_channels
  let uniq := sortedNub P.dilations
  (List.foldlM (processShapelet sqrt' ora P X uniq a1 a2)
      (M_SL_init_state ora X n_shapelets shapelet_sizes)
      (groupedIndices P.dilations)).map
    (fun st => (st, P.lengths, P.dilations, M_SL_threshold n_shapelets,
      P.normalize, P.n_channels))

/-- The generated shapelet set, in the flattened-buffer representation the
source returns as a tuple. -/
structure ShapeletSet where
  values : List ℚ
  lengths : List ℕ
  dilations : List ℕ
  threshold : List ℚ
  normalize : List Bool
  n_channels : List ℕ
  channel_ids : List ℕ

/-- Public result of `M_SL_generate_shapelet` (lines 169-171): the shapelet
set plus the provenance arrays `id_samples` and `start_positions`. -/
def M_SL_generate_shapelet (sqrt' : ℚ → ℚ) (ora : RandOracle)
    (X : SeriesTensor) (y : List ℕ) (n_shapelets : ℕ)
    (shapelet_sizes : List ℕ) (p_norm p_min p_max alpha : ℚ)
    (use_phase : Bool) (max_channels : ℕ) (prime_scheme : Bool) :
    Except String (ShapeletSet × List ℕ × List ℕ) :=
  (M_SL_generate_full sqrt' ora X y n_shapelets shapelet_sizes p_norm p_min
      p_max alpha use_phase max_channels prime_scheme).map
    (fun r =>
      ({ values := r.1.values
         lengths := r.2.1
         dilations := r.2.2.1
         threshold := r.2.2.2.1
         normalize := r.2.2.2.2.1
         n_channels := r.2.2.2.2.2
         channel_ids := r.1.channel_ids },
       r.1.id_samples, r.1.start_positions))

/-- Final loop state of a run, defaulting to the initial state when the run
raises (an exception aborts the loop and no state is returned). -/
def M_SL_gen_state (sqrt' : ℚ → ℚ) (ora : RandOracle) (X : SeriesTensor)
    (y : List ℕ) (n_shapelets : ℕ) (shapelet_sizes : List ℕ)
    (p_norm p_min p_max alpha : ℚ) (use_phase : Bool) (max_channels : ℕ)
    (prime_scheme : Bool) : GenState :=
  match M_SL_generate_full sqrt' ora X y n_shapelets shapelet_sizes p_norm
      p_min p_max alpha use_phase max_channels prime_scheme with
  | Except.ok r => r.1
  | Except.error _ => M_SL_init_state ora X n_shapelets shapelet_sizes

/-- Candidate set the loop computes for shapelet `i` at the initial
occupancy mask: the pure counterpart of the `i_mask` of line 146. -/
def M_SL_cands (ora : RandOracle) (X : SeriesTensor) (n_shapelets : ℕ)
    (shapelet_sizes : List ℕ) (alpha : ℚ) (use_phase : Bool) (i : ℕ) :
    List (ℕ × ℕ) :=
  let P := M_SL_params ora X n_shapelets shapelet_sizes alpha use_phase
  candidatePairs
    (maskDilOf (M_SL_init_state ora X n_shapelets shapelet_sizes) (P.normAt i)
      (idxOf (sortedNub P.dilations) (P.dilAt i))) P i

/-- One step of a linear congruential generator used to derive concrete
draws from a seed (the embedding's stand-in for the Mersenne twister:
any deterministic generator gives the reproducibility the claims need). -/
def lcgStep (s : ℕ) : ℕ := (1103515245 * s + 12345) % 2147483648

/-- Deterministic pseudo-random value for call-site `k` of seed `seed`. -/
def nthRand (seed k : ℕ) : ℕ := lcgStep (lcgStep (seed + 1) + k)

/-- Concrete oracle derived from an integer seed: every draw is a
deterministic function of the seed, the shapelet number and the draw site,
and every draw lies in the range the corresponding numpy draw has
(`mkOracle_WF`).  The dilation draw is the always-admissible
`floor(2 ** 0) = 1`, and the channel draw is one admissible
no-replacement sample. -/
def mkOracle (seed : ℕ) (shapelet_sizes : List ℕ) (max_channels : ℕ) :
    RandOracle :=
  { lenIdx := fun i => nthRand seed (7 * i) % shapelet_sizes.length
    dil := fun _ => 1
    normBit := fun i => nthRand seed (7 * i + 1) % 2 == 1
    nChanDraw := fun i => nthRand seed (7 * i + 2) % max_channels
    candIdx := fun i => nthRand seed (7 * i + 3)
    posIdx := fun i => nthRand seed (7 * i + 4)
    chanList := fun i => List.range (nthRand seed (7 * i + 2) % max_channels + 1) }

/-- Embedding of the seeded entry point: `seed(r_seed)` followed by the
generation loop, all randomness derived from `r_seed`. -/
def M_SL_generate_seeded (sqrt' : ℚ → ℚ) (X : SeriesTensor) (y : List ℕ)
    (n_shapelets : ℕ) (shapelet_sizes : List ℕ) (r_seed : ℕ)
    (p_norm p_min p_max alpha : ℚ) (use_phase : Bool) (max_channels : ℕ)
    (prime_scheme : Bool) : Except String (ShapeletSet × List ℕ × List ℕ) :=
  M_SL_generate_shapelet sqrt' (mkOracle r_seed shapelet_sizes max_channels) X
    y n_shapelets shapelet_sizes p_norm p_min p_max alpha use_phase
    max_channels prime_scheme

/-- Modelled from the spec: `generate_strides_2D` of
`convst/transformers/_commons.py` (the file is not under `src/`).
Spec 4.5 computes, per `(length, dilation)` group, the strided
multi-channel window array of one sample; the windows are materialized by
the extractor of spec 4.1, which is a pure function of the sample, so the
result is a fresh array: `strides[c][j][k] = sample[c][(j + k*d) mod T]`
with phase invariance, else `sample[c][j + k*d]` with
`j < T - (length-1)*dilation` valid start positions. -/
def generate_strides_2D (sample : List (List ℚ)) (length dilation : ℕ)
    (use_phase : Bool) : List (List (List ℚ)) :=
  let T := (sample.headD []).length
  let nPos := if use_phase then T else T - (length - 1) * dilation
  sample.map (fun channel =>
    (List.range nPos).map (fun j =>
      (List.range length).map (fun k =>
        if use_phase then channel.getD ((j + k * dilation) % T) 0
        else channel.getD (j + k * dilation) 0)))

/-- Index of the first occurrence of a rational value in a list
(`numpy.argmin` applied through the minimum value; 0 when absent). -/
def idxOfQ (l : List ℚ) (x : ℚ) : ℕ :=
  match l with
  | [] => 0
  | a :: as => if a = x then 0 else idxOfQ as x + 1

/-- Modelled from the spec: `apply_one_shapelet_one_sample_multivariate` of
`convst/transformers/_commons.py` (the file is not under `src/`).
Spec 4.4: per start position, the per-channel squared euclidean distances
between window and shapelet are summed across the shapelet's channels; the
distance vector is reduced to the feature triplet (minimum distance,
position-normalized argmin, count of positions below the threshold). -/
def apply_one_shapelet_one_sample_multivariate
    (strides : List (List (List ℚ))) (values : List (List ℚ))
    (threshold : ℚ) : List ℚ :=
  let nPos := (strides.headD []).length
  let dist := (List.range nPos).map (fun j =>
    ((List.range strides.length).map (fun c =>
      (List.zipWith (fun w v => (w - v) ^ 2) ((strides.getD c []).getD j [])
        (values.getD c [])).sum)).sum)
  [dist.foldr min (dist.headD 0),
   (idxOfQ dist (dist.foldr min (dist.headD 0)) : ℚ) / (nPos : ℚ),
   ((dist.filter (fun x => decide (x < threshold))).length : ℚ)]

/-- Modelled from the spec: `_combinations_1d(lengths, dilations)` of
`convst/transformers/_commons.py` — the distinct `(length, dilation)`
pairs occurring among the shapelets (spec 4.5 groups shapelets by
identical `(length, dilation)` pair). -/
def combinations_1d (lengths dilations : List ℕ) : List (ℕ × ℕ) :=
  (List.zip lengths dilations).dedup

/-- State of one group's strided-window computation in
`M_SL_apply_all_shapelets`: the current sample (`X[i_sample]`, a slice of
the shared input tensor) and the `strides` array returned by
`generate_strides_2D` (line 249).  The in-place per-window normalization of
lines 271-275 acts on this state, making it observable whether it writes
through to the sample. -/
structure StridesState where
  sample : List (List ℚ)
  strides : List (List (List ℚ))

/-- The in-place per-window normalization of lines 271-275:
`strides[i,j] = (strides[i,j] - mean(strides[i,j])) / (std(strides[i,j]) + 1e-8)`
for every channel `i` and window `j`.  Under the spec's model of
`generate_strides_2D` as a fresh windows array, the writes land in the
`strides` buffer only. -/
def normalizeStridesInPlace (sqrt' : ℚ → ℚ) (st : StridesState) :
    StridesState :=
  { st with strides := st.strides.map (fun channel =>
      channel.map (fun w => znormEps sqrt' w)) }

/-- Feature triplet of shapelet `i` on the current strided view
(lines 257-266 and 278-287): select the shapelet's channels from `strides`,
reshape its flat `values` slice to `(n_channels, length)` and call the
distance kernel. -/
def applyOneAt (S : ShapeletSet) (a1 a2 : List ℕ)
    (strides : List (List (List ℚ))) (L i : ℕ) : List ℚ :=
  let chans := sliceArr S.channel_ids (a2.getD i 0)
    (a2.getD (i + 1) 0 - a2.getD i 0)
  let vals := reshapeRows
    (sliceArr S.values (a1.getD i 0) (a1.getD (i + 1) 0 - a1.getD i 0))
    (S.n_channels.getD i 0) L
  apply_one_shapelet_one_sample_multivariate
    (chans.map (fun c => strides.getD c [])) vals (S.threshold.getD i 0)

/-- One `(length, dilation)` group of the per-sample loop of
`M_SL_apply_all_shapelets` (lines 245-287): compute the strided view once,
write the features of the non-normalized shapelets of the group, then — if
the group has normalized shapelets — z-normalize every window of the shared
strided view in place and write the features of the normalized shapelets. -/
def applyGroupStep (sqrt' : ℚ → ℚ) (S : ShapeletSet) (a1 a2 : List ℕ)
    (n_shapelets : ℕ) (use_phase : Bool)
    (acc : List (List ℚ) × List ℚ) (combo : ℕ × ℕ) :
    List (List ℚ) × List ℚ :=
  let ixs := (List.range n_shapelets).filter (fun i =>
    (S.lengths.getD i 0 == combo.1) && (S.dilations.getD i 0 == combo.2))
  let st0 : StridesState :=
    ⟨acc.1, generate_strides_2D acc.1 combo.1 combo.2 use_phase⟩
  let idxNoNorm := ixs.filter (fun i => !(S.normalize.getD i false))
  let row1 := idxNoNorm.foldl (fun r i =>
    writeSlice r (3 * i) (applyOneAt S a1 a2 st0.strides combo.1 i)) acc.2
  let idxNorm := ixs.filter (fun i => S.normalize.getD i false)
  if 0 < idxNorm.length then
    let st1 := normalizeStridesInPlace sqrt' st0
    (st1.sample, idxNorm.foldl (fun r i =>
      writeSlice r (3 * i) (applyOneAt S a1 a2 st1.strides combo.1 i)) row1)
  else (st0.sample, row1)

/-- Embedding of `M_SL_apply_all_shapelets` (lines 175-288) with the input
tensor kept observable: the per-sample loop threads each sample through
every group's strided-window state, and the final tensor (each sample as it
stands after all groups ran) is returned next to the feature matrix, so a
write-through of the in-place normalization would surface as a changed
tensor. -/
def M_SL_apply_tracked (sqrt' : ℚ → ℚ) (X : SeriesTensor) (S : ShapeletSet)
    (use_phase : Bool) :
    (SeriesTensor × ShapeletSet) × List (List ℚ) :=
  let n_shapelets := S.lengths.length
  let a1 := M_SL_offsets_values S.n_channels S.lengths
  let a2 := M_SL_offsets_channels S.n_channels
  let combos := combinations_1d S.lengths S.dilations
  let results := X.map (fun sample =>
    combos.foldl (applyGroupStep sqrt' S a1 a2 n_shapelets use_phase)
      (sample, List.replicate (3 * n_shapelets) 0))
  ((results.map Prod.fst, S), results.map Prod.snd)

/-- Public result of `M_SL_apply_all_shapelets`: the feature matrix
`X_new` of shape `(n_samples, 3 * n_shapelets)`. -/
def M_SL_apply_all_shapelets (sqrt' : ℚ → ℚ) (X : SeriesTensor)
    (S : ShapeletSet) (use_phase : Bool) : List (List ℚ) :=
  (M_SL_apply_tracked sqrt' X S use_phase).2

/-- Real-valued dilation exponent bound of line 70:
`log2(floor_divide(n_timestamps - 1, lengths - 1))`. -/
noncomputable def M_SL_upper_bound (n_timestamps L : ℕ) : ℝ :=
  Real.logb 2 (((n_timestamps - 1) / (L - 1) : ℕ) : ℝ)

/-- Real-valued dilation of lines 82-83: `floor(2 ** e)` for the drawn
exponent `e`. -/
noncomputable def M_SL_dilation_of_power (e : ℝ) : ℤ := ⌊(2 : ℝ) ^ e⌋

/-- The `a1` offset array as `M_SL_generate_shapelet` computes it
(line 130), for a given oracle and shapelet count. -/
def M_SL_gen_a1 (ora : RandOracle) (n_shapelets : ℕ)
    (shapelet_sizes : List ℕ) : List ℕ :=
  M_SL_offsets_values (M_SL_n_channels ora n_shapelets)
    (M_SL_lengths ora n_shapelets shapelet_sizes)

/-- The `a2` offset array as `M_SL_generate_shapelet` computes it
(line 131). -/
def M_SL_gen_a2 (ora : RandOracle) (n_shapelets : ℕ) : List ℕ :=
  M_SL_offsets_channels (M_SL_n_channels ora n_shapelets)

theorem length_writeSlice {α : Type} (sub : List α) (l : List α) (off : ℕ) :
    (writeSlice l off sub).length = l.length := by
  induction sub generalizing l off with
  | nil => rfl
  | cons x xs ih => rw [writeSlice, ih, List.length_set]

theorem getD_set_ne {α : Type} (l : List α) (i j : ℕ) (x d : α) (h : i ≠ j) :
    (l.set i x).getD j d = l.getD j d := by
  simp [List.getD_eq_getElem?_getD, List.getElem?_set_ne h]

theorem getD_set_self {α : Type} (l : List α) (i : ℕ) (x d : α)
    (h : i < l.length) :
    (l.set i x).getD i d = x := by
  simp [List.getD_eq_getElem?_getD, List.getElem?_set_self h]

theorem getD_writeSlice_outside {α : Type} (sub : List α) (l : List α)
    (off k : ℕ) (d : α) (h : k < off ∨ off + sub.length ≤ k) :
    (writeSlice l off sub).getD k d = l.getD k d := by
  induction sub generalizing l off with
  | nil => rfl
  | cons x xs ih =>
    rw [writeSlice, ih _ _ (by simp at h ⊢; omega),
      getD_set_ne _ _ _ _ _ (by simp at h; omega)]

theorem getD_replicate {α : Type} (n k : ℕ) (x d : α) (h : k < n) :
    (List.replicate n x).getD k d = x := by
  simp [List.getD_eq_getElem?_getD, List.getElem?_replicate, h]

theorem getD_mem {α : Type} (l : List α) (k : ℕ) (d : α) (h : k < l.length) :
    l.getD k d ∈ l := by
  rw [List.getD_eq_getElem?_getD, List.getElem?_eq_getElem h]
  exact List.getElem_mem h

theorem getD_map_range {α : Type} (n i : ℕ) (f : ℕ → α) (d : α) (h : i < n) :
    ((List.range n).map f).getD i d = f i := by
  rw [List.getD_eq_getElem?_getD, List.getElem?_map, List.getElem?_range h]
  rfl

theorem getD_zipWith_mul (a b : List ℕ) (i : ℕ) (ha : i < a.length)
    (hb : i < b.length) :
    (List.zipWith (· * ·) a b).getD i 0 = a.getD i 0 * b.getD i 0 := by
  induction a generalizing b i with
  | nil => simp at ha
  | cons x xs ih =>
    cases b with
    | nil => simp at hb
    | cons y ys =>
      cases i with
      | zero => rfl
      | succ i => simpa using ih ys i (by simpa using ha) (by simpa using hb)

theorem scanl_add_getD_zero (l : List ℕ) (a : ℕ) :
    (List.scanl (· + ·) a l).getD 0 0 = a := by
  cases l <;> rfl

theorem scanl_add_getD_succ (l : List ℕ) (a i : ℕ) (h : i < l.length) :
    (List.scanl (· + ·) a l).getD (i + 1) 0
      = (List.scanl (· + ·) a l).getD i 0 + l.getD i 0 := by
  induction l generalizing a i with
  | nil => simp at h
  | cons x xs ih =>
    cases i with
    | zero => simp [List.scanl_cons, scanl_add_getD_zero]
    | succ i =>
      have := ih (a + x) i (by simpa using h)
      simpa [List.scanl_cons] using this

theorem scanl_add_getD_mono (l : List ℕ) (a i j : ℕ) (hij : i ≤ j)
    (hj : j ≤ l.length) :
    (List.scanl (· + ·) a l).getD i 0 ≤ (List.scanl (· + ·) a l).getD j 0 := by
  induction j with
  | zero =>
    have : i = 0 := by omega
    simp [this]
  | succ j ih =>
    rcases Nat.eq_or_lt_of_le hij with rfl | hlt
    · exact le_refl _
    · calc (List.scanl (· + ·) a l).getD i 0
          ≤ (List.scanl (· + ·) a l).getD j 0 := ih (by omega) (by omega)
        _ ≤ (List.scanl (· + ·) a l).getD (j + 1) 0 := by
            rw [scanl_add_getD_succ l a j (by omega)]; omega

theorem insertSorted_perm (x : ℕ) (l : List ℕ) :
    (insertSorted x l).Perm (x :: l) := by
  induction l with
  | nil => simp [insertSorted]
  | cons a as ih =>
    rw [insertSorted]
    split
    · exact List.Perm.refl _
    · exact (List.Perm.cons a ih).trans (List.Perm.swap x a as)

theorem sortAsc_perm (l : List ℕ) : (sortAsc l).Perm l := by
  induction l with
  | nil => simp [sortAsc]
  | cons a as ih =>
    exact (insertSorted_perm a (sortAsc as)).trans (List.Perm.cons a ih)

theorem mem_sortedNub (x : ℕ) (l : List ℕ) : x ∈ sortedNub l ↔ x ∈ l := by
  rw [sortedNub, List.mem_dedup]
  exact (sortAsc_perm l).mem_iff

theorem idxOf_lt_length (l : List ℕ) (x : ℕ) (h : x ∈ l) :
    idxOf l x < l.length := by
  induction l with
  | nil => simp at h
  | cons a as ih =>
    rw [idxOf]
    split
    · simp
    · rename_i hax
      have hx : x ∈ as := by
        rcases List.mem_cons.mp h with h1 | h1
        · exact absurd h1.symm hax
        · exact h1
      simpa using ih hx

theorem sliceStop_le (T : ℕ) (z : ℤ) : sliceStop T z ≤ T := by
  rw [sliceStop]
  split <;> omega

theorem sliceStop_of_bounds (T : ℕ) (z : ℤ) (h0 : 0 ≤ z) (hT : z ≤ (T : ℤ)) :
    (sliceStop T z : ℤ) = z := by
  rw [sliceStop]
  split
  · omega
  · omega

theorem alphaCond_iff (alpha : ℚ) (nc count : ℕ) :
    alphaCond alpha nc count = true ↔ (nc : ℚ) * alpha ≤ (count : ℚ) := by
  rw [alphaCond, decide_eq_true_eq]
  have hden : (0 : ℚ) < (alpha.den : ℚ) := by exact_mod_cast alpha.den_pos
  have hnum : (alpha : ℚ) * (alpha.den : ℚ) = (alpha.num : ℚ) := by
    nth_rewrite 1 [← Rat.num_div_den alpha]
    exact div_mul_cancel₀ _ (ne_of_gt hden)
  constructor
  · intro h
    have h' : ((alpha.num : ℚ)) * (nc : ℚ) ≤ (count : ℚ) * (alpha.den : ℚ) := by
      exact_mod_cast h
    rw [← mul_le_mul_right hden, mul_assoc, hnum]
    linarith
  · intro h
    have h2 := mul_le_mul_of_nonneg_right h (le_of_lt hden)
    rw [mul_assoc, hnum] at h2
    have h3 : ((alpha.num : ℚ)) * (nc : ℚ) ≤ (count : ℚ) * (alpha.den : ℚ) := by
      linarith
    exact_mod_cast h3

theorem mem_candidatePairs (maskDil : List (List (List Bool))) (P : GenParams)
    (i s t : ℕ) :
    (s, t) ∈ candidatePairs maskDil P i ↔
      s < P.n_samples ∧ t < P.stopAt i ∧
      alphaCond P.alpha (P.ncAt i) (countAvail maskDil P.n_features s t)
        = true := by
  rw [candidatePairs, List.mem_flatMap]
  constructor
  · rintro ⟨a, ha, hmem⟩
    rw [List.mem_map] at hmem
    rcases hmem with ⟨t', ht', heq⟩
    rw [List.mem_filter, List.mem_range] at ht'
    cases heq
    exact ⟨List.mem_range.mp ha, ht'.1, ht'.2⟩
  · rintro ⟨hs, ht, hcond⟩
    refine ⟨s, List.mem_range.mpr hs, ?_⟩
    rw [List.mem_map]
    exact ⟨t, List.mem_filter.mpr ⟨List.mem_range.mpr ht, hcond⟩, rfl⟩

theorem countAvail_replicate (nS nF T s t : ℕ) (hs : s < nS) (ht : t < T) :
    countAvail
      (List.replicate nS (List.replicate nF (List.replicate T true))) nF s t
      = nF := by
  rw [countAvail]
  have hall : ∀ c ∈ List.range nF,
      ((((List.replicate nS (List.replicate nF (List.replicate T true))).getD
        s []).getD c []).getD t false) = true := by
    intro c hc
    rw [getD_replicate _ _ _ _ hs, getD_replicate _ _ _ _ (List.mem_range.mp hc),
      getD_replicate _ _ _ _ ht]
  rw [List.filter_eq_self.mpr hall, List.length_range]

theorem maskDilOf_init (ora : RandOracle) (X : SeriesTensor)
    (n_shapelets : ℕ) (shapelet_sizes : List ℕ) (norm : Bool) (i_d : ℕ)
    (h : i_d < (sortedNub (M_SL_dilations ora n_shapelets)).length) :
    maskDilOf (M_SL_init_state ora X n_shapelets shapelet_sizes) norm i_d
      = List.replicate X.length (List.replicate (X.headD []).length
          (List.replicate ((X.headD []).headD []).length true)) := by
  rw [maskDilOf, M_SL_init_state, initMask]
  cases norm <;>
    simp only [Bool.false_eq_true, if_false, if_true, reduceIte] <;>
    rw [getD_replicate _ _ _ _ (by omega), getD_replicate _ _ _ _ h]

theorem length_get_subsequence (sqrt' : ℚ → ℚ) (series : List ℚ)
    (s L d : ℕ) (norm use_phase : Bool) :
    (get_subsequence sqrt' series s L d norm use_phase).length = L := by
  rw [get_subsequence]
  cases norm <;> simp [znormEps]

theorem length_flatten_map_const {α : Type} (f : α → List ℚ) (L : ℕ)
    (l : List α) (h : ∀ c ∈ l, (f c).length = L) :
    ((l.map f).flatten).length = l.length * L := by
  induction l with
  | nil => simp
  | cons a as ih =>
    simp only [List.map_cons, List.flatten_cons, List.length_append,
      List.length_cons]
    rw [h a (List.mem_cons_self a as), ih (fun c hc => h c (List.mem_cons_of_mem a hc))]
    ring

theorem M_SL_lengths_length (ora : RandOracle) (n : ℕ) (sizes : List ℕ) :
    (M_SL_lengths ora n sizes).length = n := by
  simp [M_SL_lengths]

theorem M_SL_dilations_length (ora : RandOracle) (n : ℕ) :
    (M_SL_dilations ora n).length = n := by
  simp [M_SL_dilations]

theorem M_SL_n_channels_length (ora : RandOracle) (n : ℕ) :
    (M_SL_n_channels ora n).length = n := by
  simp [M_SL_n_channels]

theorem M_SL_params_lenAt (ora : RandOracle) (X : SeriesTensor) (n : ℕ)
    (sizes : List ℕ) (alpha : ℚ) (use_phase : Bool) (i : ℕ) (h : i < n) :
    (M_SL_params ora X n sizes alpha use_phase).lenAt i
      = sizes.getD (ora.lenIdx i) 0 := by
  rw [M_SL_params, GenParams.lenAt]
  exact getD_map_range n i _ 0 h

theorem M_SL_params_dilAt (ora : RandOracle) (X : SeriesTensor) (n : ℕ)
    (sizes : List ℕ) (alpha : ℚ) (use_phase : Bool) (i : ℕ) (h : i < n) :
    (M_SL_params ora X n sizes alpha use_phase).dilAt i = ora.dil i := by
  rw [M_SL_params, GenParams.dilAt]
  exact getD_map_range n i _ 0 h

theorem M_SL_params_ncAt (ora : RandOracle) (X : SeriesTensor) (n : ℕ)
    (sizes : List ℕ) (alpha : ℚ) (use_phase : Bool) (i : ℕ) (h : i < n) :
    (M_SL_params ora X n sizes alpha use_phase).ncAt i
      = ora.nChanDraw i + 1 := by
  rw [M_SL_params, GenParams.ncAt]
  exact getD_map_range n i _ 0 h

theorem mkOracle_WF (seed : ℕ) (sizes : List ℕ) (maxc nF : ℕ)
    (hs : 0 < sizes.length) (hc : 0 < maxc) :
    RandOracle.WF (mkOracle seed sizes maxc) sizes maxc nF := by
  rw [RandOracle.WF]
  simp only [mkOracle]
  refine ⟨fun i => Nat.mod_lt _ hs, fun i => Nat.mod_lt _ hc, fun i h => ?_⟩
  refine ⟨by simp, List.nodup_range _, ?_⟩
  intro c hcm
  rw [List.mem_range] at hcm
  omega

theorem processShapelet_cases (sqrt' : ℚ → ℚ) (ora : RandOracle)
    (P : GenParams) (X : SeriesTensor) (uniq a1 a2 : List ℕ) (st : GenState)
    (i : ℕ) (st' : GenState)
    (h : processShapelet sqrt' ora P X uniq a1 a2 st i = Except.ok st') :
    st' = st ∨
    ((candidatePairs (maskDilOf st (P.normAt i) (idxOf uniq (P.dilAt i))) P i)
        ≠ [] ∧
     P.ncAt i ≤ P.n_features ∧
     ∃ id_sample start_position : ℕ,
       (∃ q ∈ candidatePairs
          (maskDilOf st (P.normAt i) (idxOf uniq (P.dilAt i))) P i,
          q.2 = start_position) ∧
       st' = { st with
         values := writeSlice st.values (a1.getD i 0)
           (((ora.chanList i).map (fun c =>
             get_subsequence sqrt' ((X.getD id_sample []).getD c [])
               start_position (P.lenAt i) (P.dilAt i) (P.normAt i)
               P.use_phase)).flatten),
         channel_ids := writeSlice st.channel_ids (a2.getD i 0)
           (ora.chanList i),
         id_samples := st.id_samples.set i id_sample,
         start_positions := st.start_positions.set i start_position }) := by
  simp only [processShapelet] at h
  set cands :=
    candidatePairs (maskDilOf st (P.normAt i) (idxOf uniq (P.dilAt i))) P i
    with hcands
  by_cases h1 : 0 < cands.length
  · rw [if_pos h1] at h
    by_cases h2 : P.ncAt i ≤ P.n_features
    · rw [if_pos h2] at h
      right
      have hne : cands ≠ [] := by
        intro hnil
        rw [hnil] at h1
        simp at h1
      set e := cands.getD (ora.candIdx i % cands.length) (0, 0) with he
      have hemem : e ∈ cands := getD_mem _ _ _ (Nat.mod_lt _ h1)
      set posList := (cands.filter (fun q => q.1 == e.1)).map
        (fun q => q.2) with hpl
      have hplne : 0 < posList.length := by
        rw [hpl, List.length_map]
        have : e ∈ cands.filter (fun q => q.1 == e.1) :=
          List.mem_filter.mpr ⟨hemem, by simp⟩
        exact List.length_pos.mpr (List.ne_nil_of_mem this)
      set sp := posList.getD (ora.posIdx i % posList.length) 0 with hsp
      have hspmem : sp ∈ posList := getD_mem _ _ _ (Nat.mod_lt _ hplne)
      have hspc : ∃ q ∈ cands, q.2 = sp := by
        rw [hpl, List.mem_map] at hspmem
        rcases hspmem with ⟨q, hq, hq2⟩
        exact ⟨q, (List.mem_filter.mp hq).1, hq2⟩
      refine ⟨hne, h2, e.1, sp, hspc, ?_⟩
      cases h
      rfl
    · rw [if_neg h2] at h
      exact absurd h (by simp)
  · rw [if_neg h1] at h
    left
    cases h
    rfl

theorem processShapelet_ok_state (sqrt' : ℚ → ℚ) (ora : RandOracle)
    (P : GenParams) (X : SeriesTensor) (uniq a1 a2 : List ℕ) (st : GenState)
    (i : ℕ) (st' : GenState)
    (h : processShapelet sqrt' ora P X uniq a1 a2 st i = Except.ok st') :
    st'.mask_sampling = st.mask_sampling ∧
    st'.mask_return = st.mask_return ∧
    st'.start_positions.length = st.start_positions.length := by
  rcases processShapelet_cases sqrt' ora P X uniq a1 a2 st i st' h with
    rfl | ⟨_, _, s, p, _, rfl⟩
  · exact ⟨rfl, rfl, rfl⟩
  · exact ⟨rfl, rfl, List.length_set _ _ _⟩

theorem foldlM_ok_invariant {σ : Type} (P : σ → Prop)
    (step : σ → ℕ → Except String σ) (l : List ℕ) (s0 s1 : σ)
    (h0 : P s0)
    (hstep : ∀ s j s', j ∈ l → P s → step s j = Except.ok s' → P s')
    (hfold : List.foldlM step s0 l = Except.ok s1) : P s1 := by
  induction l generalizing s0 with
  | nil =>
    cases hfold
    exact h0
  | cons j js ih =>
    rw [List.foldlM_cons] at hfold
    cases hj : step s0 j with
    | error e =>
      rw [hj] at hfold
      exact Except.noConfusion hfold
    | ok s' =>
      rw [hj] at hfold
      exact ih s' (hstep s0 j s' (List.mem_cons_self j js) h0 hj)
        (fun s k s'' hk => hstep s k s'' (List.mem_cons_of_mem j hk)) hfold

theorem foldlM_ok_total {σ : Type} (step : σ → ℕ → Except String σ)
    (l : List ℕ) (s0 : σ)
    (hstep : ∀ s j, j ∈ l → ∃ s', step s j = Except.ok s') :
    ∃ s1, List.foldlM step s0 l = Except.ok s1 := by
  induction l generalizing s0 with
  | nil => exact ⟨s0, rfl⟩
  | cons j js ih =>
    rcases hstep s0 j (List.mem_cons_self j js) with ⟨s', hj⟩
    rcases ih s' (fun s k hk => hstep s k (List.mem_cons_of_mem j hk)) with
      ⟨s1, h1⟩
    refine ⟨s1, ?_⟩
    rw [List.foldlM_cons, hj]
    exact h1

theorem except_map_ok {σ τ : Type} (f : σ → τ) (e : Except String σ) (r : τ)
    (h : e.map f = Except.ok r) : ∃ s, e = Except.ok s ∧ r = f s := by
  cases e with
  | error _ => exact Except.noConfusion h
  | ok s =>
    refine ⟨s, rfl, ?_⟩
    cases h
    rfl

theorem groupedIndices_lt (dils : List ℕ) (j : ℕ)
    (h : j ∈ groupedIndices dils) : j < dils.length := by
  rw [groupedIndices, List.mem_flatMap] at h
  rcases h with ⟨d, _, hj⟩
  rw [List.mem_filter, List.mem_range] at hj
  exact hj.1

theorem getD_replicate_self {α : Type} (m k : ℕ) (x : α) :
    (List.replicate m x).getD k x = x := by
  by_cases h : k < m
  · exact getD_replicate m k x x h
  · rw [List.getD_eq_getElem?_getD, List.getElem?_eq_none]
    · rfl
    · simp
      omega

theorem maskDilOf_congr (st st2 : GenState) (norm : Bool) (i_d : ℕ)
    (h : st.mask_sampling = st2.mask_sampling) :
    maskDilOf st norm i_d = maskDilOf st2 norm i_d := by
  rw [maskDilOf, maskDilOf, h]

theorem M_SL_params_dilations (ora : RandOracle) (X : SeriesTensor) (n : ℕ)
    (sizes : List ℕ) (alpha : ℚ) (use_phase : Bool) :
    (M_SL_params ora X n sizes alpha use_phase).dilations
      = M_SL_dilations ora n := rfl

theorem M_SL_params_lengths (ora : RandOracle) (X : SeriesTensor) (n : ℕ)
    (sizes : List ℕ) (alpha : ℚ) (use_phase : Bool) :
    (M_SL_params ora X n sizes alpha use_phase).lengths
      = M_SL_lengths ora n sizes := rfl

theorem M_SL_params_n_channels (ora : RandOracle) (X : SeriesTensor) (n : ℕ)
    (sizes : List ℕ) (alpha : ℚ) (use_phase : Bool) :
    (M_SL_params ora X n sizes alpha use_phase).n_channels
      = M_SL_n_channels ora n := rfl

theorem M_SL_params_n_features (ora : RandOracle) (X : SeriesTensor) (n : ℕ)
    (sizes : List ℕ) (alpha : ℚ) (use_phase : Bool) :
    (M_SL_params ora X n sizes alpha use_phase).n_features
      = (X.headD []).length := rfl

theorem M_SL_params_n_samples (ora : RandOracle) (X : SeriesTensor) (n : ℕ)
    (sizes : List ℕ) (alpha : ℚ) (use_phase : Bool) :
    (M_SL_params ora X n sizes alpha use_phase).n_samples = X.length := rfl

theorem M_SL_gen_state_mask_inv (sqrt' : ℚ → ℚ) (ora : RandOracle)
    (X : SeriesTensor) (y : List ℕ) (n : ℕ) (sizes : List ℕ)
    (p_norm p_min p_max alpha : ℚ) (use_phase : Bool) (maxc : ℕ)
    (prime_scheme : Bool) :
    (M_SL_gen_state sqrt' ora X y n sizes p_norm p_min p_max alpha use_phase
      maxc prime_scheme).mask_sampling
      = (M_SL_init_state ora X n sizes).mask_sampling ∧
    (M_SL_gen_state sqrt' ora X y n sizes p_norm p_min p_max alpha use_phase
      maxc prime_scheme).mask_return = List.replicate n true := by
  rw [M_SL_gen_state]
  cases hfull : M_SL_generate_full sqrt' ora X y n sizes p_norm p_min p_max
      alpha use_phase maxc prime_scheme with
  | error e => exact ⟨rfl, rfl⟩
  | ok r =>
    rw [M_SL_generate_full] at hfull
    rcases except_map_ok _ _ _ hfull with ⟨st, hf, hr⟩
    have hinv := foldlM_ok_invariant
      (fun s => s.mask_sampling
          = (M_SL_init_state ora X n sizes).mask_sampling ∧
        s.mask_return = (M_SL_init_state ora X n sizes).mask_return)
      _ _ _ _ ⟨rfl, rfl⟩
      (fun s j s' _ hP hs => by
        obtain ⟨h1, h2, _⟩ :=
          processShapelet_ok_state _ _ _ _ _ _ _ _ _ _ hs
        exact ⟨h1.trans hP.1, h2.trans hP.2⟩) hf
    have hr1 : r.1 = st := by rw [hr]
    constructor
    · show r.1.mask_sampling = _
      rw [hr1]
      exact hinv.1
    · show r.1.mask_return = _
      rw [hr1]
      exact hinv.2

theorem M_SL_gen_state_start_bound (sqrt' : ℚ → ℚ) (ora : RandOracle)
    (X : SeriesTensor) (y : List ℕ) (n : ℕ) (sizes : List ℕ)
    (p_norm p_min p_max alpha : ℚ) (use_phase : Bool) (maxc : ℕ)
    (prime_scheme : Bool) (i : ℕ) (hi : i < n) :
    (M_SL_gen_state sqrt' ora X y n sizes p_norm p_min p_max alpha use_phase
      maxc prime_scheme).start_positions.getD i 0 = 0 ∨
    (M_SL_gen_state sqrt' ora X y n sizes p_norm p_min p_max alpha use_phase
      maxc prime_scheme).start_positions.getD i 0 <
      (M_SL_params ora X n sizes alpha use_phase).stopAt i := by
  rw [M_SL_gen_state]
  cases hfull : M_SL_generate_full sqrt' ora X y n sizes p_norm p_min p_max
      alpha use_phase maxc prime_scheme with
  | error e =>
    left
    show (M_SL_init_state ora X n sizes).start_positions.getD i 0 = 0
    rw [M_SL_init_state]
    exact getD_replicate_self n i 0
  | ok r =>
    rw [M_SL_generate_full] at hfull
    rcases except_map_ok _ _ _ hfull with ⟨st, hf, hr⟩
    have hinv := foldlM_ok_invariant
      (fun s => s.start_positions.length = n ∧
        ∀ i', i' < n → (s.start_positions.getD i' 0 = 0 ∨
          s.start_positions.getD i' 0
            < (M_SL_params ora X n sizes alpha use_phase).stopAt i'))
      _ _ _ _
      ⟨by rw [M_SL_init_state]; exact List.length_replicate n 0,
       fun i' _ => Or.inl (by
        rw [M_SL_init_state]
        exact getD_replicate_self n i' 0)⟩
      (fun s j s' hj hPs hs => by
        have hjn : j < n := by
          have := groupedIndices_lt _ _ hj
          rwa [M_SL_params_dilations, M_SL_dilations_length] at this
        rcases processShapelet_cases _ _ _ _ _ _ _ _ _ _ hs with
          rfl | ⟨hne, h2, s_id, sp, hspc, rfl⟩
        · exact hPs
        · refine ⟨by simpa using hPs.1, fun i' hi' => ?_⟩
          by_cases hij : i' = j
          · subst hij
            rw [getD_set_self _ _ _ _ (by rw [hPs.1]; exact hjn)]
            right
            rcases hspc with ⟨q, hq, hq2⟩
            rw [← Prod.mk.eta (p := q)] at hq
            have := (mem_candidatePairs _ _ _ _ _).mp hq
            rw [hq2] at this
            exact this.2.1
          · rw [getD_set_ne _ _ _ _ _ (fun hh => hij hh.symm)]
            exact hPs.2 i' hi') hf
    show r.1.start_positions.getD i 0 = 0 ∨
      r.1.start_positions.getD i 0 <
        (M_SL_params ora X n sizes alpha use_phase).stopAt i
    have hr1 : r.1 = st := by rw [hr]
    rw [hr1]
    exact hinv.2 i hi

theorem M_SL_gen_a1_succ (ora : RandOracle) (n : ℕ) (sizes : List ℕ) (j : ℕ)
    (hj : j < n) :
    (M_SL_gen_a1 ora n sizes).getD (j + 1) 0
      = (M_SL_gen_a1 ora n sizes).getD j 0
        + (ora.nChanDraw j + 1) * sizes.getD (ora.lenIdx j) 0 := by
  rw [M_SL_gen_a1, M_SL_offsets_values]
  have hlen : (List.zipWith (· * ·) (M_SL_n_channels ora n)
      (M_SL_lengths ora n sizes)).length = n := by
    rw [List.length_zipWith, M_SL_n_channels_length, M_SL_lengths_length,
      min_self]
  rw [scanl_add_getD_succ _ _ j (by rw [hlen]; exact hj)]
  congr 1
  rw [getD_zipWith_mul _ _ j (by rw [M_SL_n_channels_length]; exact hj)
    (by rw [M_SL_lengths_length]; exact hj)]
  rw [M_SL_n_channels, getD_map_range _ _ _ _ hj, M_SL_lengths,
    getD_map_range _ _ _ _ hj]

theorem M_SL_gen_a1_mono (ora : RandOracle) (n : ℕ) (sizes : List ℕ)
    (i j : ℕ) (hij : i ≤ j) (hj : j ≤ n) :
    (M_SL_gen_a1 ora n sizes).getD i 0 ≤ (M_SL_gen_a1 ora n sizes).getD j 0 := by
  rw [M_SL_gen_a1, M_SL_offsets_values]
  refine scanl_add_getD_mono _ _ i j hij ?_
  rw [List.length_zipWith, M_SL_n_channels_length, M_SL_lengths_length,
    min_self]
  exact hj

theorem M_SL_gen_a2_succ (ora : RandOracle) (n : ℕ) (j : ℕ) (hj : j < n) :
    (M_SL_gen_a2 ora n).getD (j + 1) 0
      = (M_SL_gen_a2 ora n).getD j 0 + (ora.nChanDraw j + 1) := by
  rw [M_SL_gen_a2, M_SL_offsets_channels]
  rw [scanl_add_getD_succ _ _ j (by rw [M_SL_n_channels_length]; exact hj)]
  congr 1
  rw [M_SL_n_channels, getD_map_range _ _ _ _ hj]

theorem M_SL_gen_a2_mono (ora : RandOracle) (n : ℕ) (i j : ℕ) (hij : i ≤ j)
    (hj : j ≤ n) :
    (M_SL_gen_a2 ora n).getD i 0 ≤ (M_SL_gen_a2 ora n).getD j 0 := by
  rw [M_SL_gen_a2, M_SL_offsets_channels]
  refine scanl_add_getD_mono _ _ i j hij ?_
  rw [M_SL_n_channels_length]
  exact hj

theorem M_SL_gen_state_skipped_zero (sqrt' : ℚ → ℚ) (ora : RandOracle)
    (X : SeriesTensor) (y : List ℕ) (n : ℕ) (sizes : List ℕ)
    (p_norm p_min p_max alpha : ℚ) (use_phase : Bool) (maxc : ℕ)
    (prime_scheme : Bool)
    (hwf : RandOracle.WF ora sizes maxc (X.headD []).length)
    (i : ℕ) (hi : i < n)
    (hskip : M_SL_cands ora X n sizes alpha use_phase i = []) :
    (∀ k, (M_SL_gen_a1 ora n sizes).getD i 0 ≤ k →
      k < (M_SL_gen_a1 ora n sizes).getD (i + 1) 0 →
      (M_SL_gen_state sqrt' ora X y n sizes p_norm p_min p_max alpha use_phase
        maxc prime_scheme).values.getD k 0 = 0) ∧
    (∀ k, (M_SL_gen_a2 ora n).getD i 0 ≤ k →
      k < (M_SL_gen_a2 ora n).getD (i + 1) 0 →
      (M_SL_gen_state sqrt' ora X y n sizes p_norm p_min p_max alpha use_phase
        maxc prime_scheme).channel_ids.getD k 0 = 0) := by
  rw [M_SL_gen_state]
  cases hfull : M_SL_generate_full sqrt' ora X y n sizes p_norm p_min p_max
      alpha use_phase maxc prime_scheme with
  | error e =>
    constructor
    · intro k _ _
      show (M_SL_init_state ora X n sizes).values.getD k 0 = 0
      rw [M_SL_init_state]
      exact getD_replicate_self _ _ _
    · intro k _ _
      show (M_SL_init_state ora X n sizes).channel_ids.getD k 0 = 0
      rw [M_SL_init_state]
      exact getD_replicate_self _ _ _
  | ok r =>
    rw [M_SL_generate_full] at hfull
    rcases except_map_ok _ _ _ hfull with ⟨st, hf, hr⟩
    have hinv := foldlM_ok_invariant
      (fun s => s.mask_sampling
          = (M_SL_init_state ora X n sizes).mask_sampling ∧
        ∀ i', i' < n →
          M_SL_cands ora X n sizes alpha use_phase i' = [] →
          (∀ k, (M_SL_gen_a1 ora n sizes).getD i' 0 ≤ k →
            k < (M_SL_gen_a1 ora n sizes).getD (i' + 1) 0 →
            s.values.getD k 0 = 0) ∧
          (∀ k, (M_SL_gen_a2 ora n).getD i' 0 ≤ k →
            k < (M_SL_gen_a2 ora n).getD (i' + 1) 0 →
            s.channel_ids.getD k 0 = 0))
      _ _ _ _
      ⟨rfl, fun i' _ _ => by
        constructor
        · intro k _ _
          show (M_SL_init_state ora X n sizes).values.getD k 0 = 0
          rw [M_SL_init_state]
          exact getD_replicate_self _ _ _
        · intro k _ _
          show (M_SL_init_state ora X n sizes).channel_ids.getD k 0 = 0
          rw [M_SL_init_state]
          exact getD_replicate_self _ _ _⟩
      (fun s j s' hj hQ hs => by
        have hjn : j < n := by
          have := groupedIndices_lt _ _ hj
          rwa [M_SL_params_dilations, M_SL_dilations_length] at this
        rcases processShapelet_cases _ _ _ _ _ _ _ _ _ _ hs with
          rfl | ⟨hne, h2, sid, sp, hspc, rfl⟩
        · exact hQ
        · rw [maskDilOf_congr s (M_SL_init_state ora X n sizes) _ _ hQ.1]
            at hne
          have hcne : M_SL_cands ora X n sizes alpha use_phase j ≠ [] := by
            simp only [M_SL_cands]
            exact hne
          have hnc : ora.nChanDraw j + 1 ≤ (X.headD []).length := by
            have h2' := h2
            rw [M_SL_params_ncAt _ _ _ _ _ _ _ hjn, M_SL_params_n_features]
              at h2'
            exact h2'
          have hchlen : (ora.chanList j).length = ora.nChanDraw j + 1 :=
            (hwf.2.2 j hnc).1
          refine ⟨hQ.1, fun i' hi' hskip' => ?_⟩
          have hij : i' ≠ j := fun hh => hcne (hh ▸ hskip')
          obtain ⟨hv, hc⟩ := hQ.2 i' hi' hskip'
          have hvl : (((ora.chanList j).map (fun c =>
              get_subsequence sqrt' ((X.getD sid []).getD c []) sp
                ((M_SL_params ora X n sizes alpha use_phase).lenAt j)
                ((M_SL_params ora X n sizes alpha use_phase).dilAt j)
                ((M_SL_params ora X n sizes alpha use_phase).normAt j)
                (M_SL_params ora X n sizes alpha use_phase).use_phase)).flatten).length
              = (ora.nChanDraw j + 1)
                * ((M_SL_params ora X n sizes alpha use_phase).lenAt j) := by
            rw [length_flatten_map_const _
              ((M_SL_params ora X n sizes alpha use_phase).lenAt j) _
              (fun c _ => length_get_subsequence _ _ _ _ _ _ _), hchlen]
          constructor
          · intro k hk1 hk2
            show (writeSlice s.values
              ((M_SL_offsets_values
                (M_SL_params ora X n sizes alpha use_phase).n_channels
                (M_SL_params ora X n sizes alpha use_phase).lengths).getD j 0)
              _).getD k 0 = 0
            have ha1e : M_SL_offsets_values
                (M_SL_params ora X n sizes alpha use_phase).n_channels
                (M_SL_params ora X n sizes alpha use_phase).lengths
                = M_SL_gen_a1 ora n sizes := rfl
            rw [ha1e]
            rw [getD_writeSlice_outside]
            · exact hv k hk1 hk2
            · rw [hvl]
              have hsucc := M_SL_gen_a1_succ ora n sizes j hjn
              rw [M_SL_params_lenAt _ _ _ _ _ _ _ hjn]
              rcases Nat.lt_or_ge i' j with hlt | hge
              · left
                have := M_SL_gen_a1_mono ora n sizes (i' + 1) j hlt
                  (le_of_lt hjn)
                omega
              · right
                have hji : j < i' := lt_of_le_of_ne hge (fun hh => hij hh.symm)
                have := M_SL_gen_a1_mono ora n sizes (j + 1) i' hji
                  (le_of_lt hi')
                omega
          · intro k hk1 hk2
            show (writeSlice s.channel_ids
              ((M_SL_offsets_channels
                (M_SL_params ora X n sizes alpha use_phase).n_channels).getD
                  j 0) _).getD k 0 = 0
            have ha2e : M_SL_offsets_channels
                (M_SL_params ora X n sizes alpha use_phase).n_channels
                = M_SL_gen_a2 ora n := rfl
            rw [ha2e]
            rw [getD_writeSlice_outside]
            · exact hc k hk1 hk2
            · rw [hchlen]
              have hsucc := M_SL_gen_a2_succ ora n j hjn
              rcases Nat.lt_or_ge i' j with hlt | hge
              · left
                have := M_SL_gen_a2_mono ora n (i' + 1) j hlt (le_of_lt hjn)
                omega
              · right
                have hji : j < i' := lt_of_le_of_ne hge (fun hh => hij hh.symm)
                have := M_SL_gen_a2_mono ora n (j + 1) i' hji (le_of_lt hi')
                omega) hf
    have hr1 : r.1 = st := by rw [hr]
    constructor
    · intro k hk1 hk2
      show r.1.values.getD k 0 = 0
      rw [hr1]
      exact (hinv.2 i hi hskip).1 k hk1 hk2
    · intro k hk1 hk2
      show r.1.channel_ids.getD k 0 = 0
      rw [hr1]
      exact (hinv.2 i hi hskip).2 k hk1 hk2

theorem M_SL_generate_total (sqrt' : ℚ → ℚ) (ora : RandOracle)
    (X : SeriesTensor) (y : List ℕ) (n : ℕ) (sizes : List ℕ)
    (p_norm p_min p_max alpha : ℚ) (use_phase : Bool) (maxc : ℕ)
    (prime_scheme : Bool)
    (hwf : RandOracle.WF ora sizes maxc (X.headD []).length)
    (hmc : maxc ≤ (X.headD []).length) :
    ∃ r, M_SL_generate_full sqrt' ora X y n sizes p_norm p_min p_max alpha
      use_phase maxc prime_scheme = Except.ok r := by
  rw [M_SL_generate_full]
  have htot := foldlM_ok_total
    (processShapelet sqrt' ora (M_SL_params ora X n sizes alpha use_phase) X
      (sortedNub (M_SL_params ora X n sizes alpha use_phase).dilations)
      (M_SL_offsets_values
        (M_SL_params ora X n sizes alpha use_phase).n_channels
        (M_SL_params ora X n sizes alpha use_phase).lengths)
      (M_SL_offsets_channels
        (M_SL_params ora X n sizes alpha use_phase).n_channels))
    (groupedIndices (M_SL_params ora X n sizes alpha use_phase).dilations)
    (M_SL_init_state ora X n sizes)
    (fun s j hj => by
      have hjn : j < n := by
        have := groupedIndices_lt _ _ hj
        rwa [M_SL_params_dilations, M_SL_dilations_length] at this
      have hncle : (M_SL_params ora X n sizes alpha use_phase).ncAt j
          ≤ (M_SL_params ora X n sizes alpha use_phase).n_features := by
        rw [M_SL_params_ncAt _ _ _ _ _ _ _ hjn, M_SL_params_n_features]
        have := hwf.2.1 j
        omega
      simp only [processShapelet]
      by_cases h1 : 0 < (candidatePairs
          (maskDilOf s ((M_SL_params ora X n sizes alpha use_phase).normAt j)
            (idxOf (sortedNub
              (M_SL_params ora X n sizes alpha use_phase).dilations)
              ((M_SL_params ora X n sizes alpha use_phase).dilAt j)))
          (M_SL_params ora X n sizes alpha use_phase) j).length
      · rw [if_pos h1, if_pos hncle]
        exact ⟨_, rfl⟩
      · rw [if_neg h1]
        exact ⟨s, rfl⟩)
  rcases htot with ⟨s1, h1⟩
  refine ⟨(s1, (M_SL_params ora X n sizes alpha use_phase).lengths,
    (M_SL_params ora X n sizes alpha use_phase).dilations, M_SL_threshold n,
    (M_SL_params ora X n sizes alpha use_phase).normalize,
    (M_SL_params ora X n sizes alpha use_phase).n_channels), ?_⟩
  rw [h1]
  rfl

theorem M_SL_cands_nonempty (ora : RandOracle) (X : SeriesTensor) (n : ℕ)
    (sizes : List ℕ) (alpha : ℚ) (use_phase : Bool) (maxc : ℕ) (i : ℕ)
    (hi : i < n) (hnS : 0 < X.length)
    (hwf : RandOracle.WF ora sizes maxc (X.headD []).length)
    (hmc : maxc ≤ (X.headD []).length)
    (hα0 : 0 ≤ alpha) (hα1 : alpha ≤ 1)
    (hstop : 0 < (M_SL_params ora X n sizes alpha use_phase).stopAt i) :
    M_SL_cands ora X n sizes alpha use_phase i ≠ [] := by
  simp only [M_SL_cands]
  intro hnil
  have hT : 0 < ((X.headD []).headD []).length := by
    have h1 := sliceStop_le ((X.headD []).headD []).length
      ((M_SL_params ora X n sizes alpha use_phase).dShape i)
    have h2 : (M_SL_params ora X n sizes alpha use_phase).stopAt i
        = sliceStop ((X.headD []).headD []).length
          ((M_SL_params ora X n sizes alpha use_phase).dShape i) := rfl
    omega
  have hid : idxOf (sortedNub
      (M_SL_params ora X n sizes alpha use_phase).dilations)
      ((M_SL_params ora X n sizes alpha use_phase).dilAt i)
      < (sortedNub (M_SL_params ora X n sizes alpha use_phase).dilations).length := by
    refine idxOf_lt_length _ _ ?_
    rw [mem_sortedNub]
    have : i < (M_SL_params ora X n sizes alpha use_phase).dilations.length := by
      rw [M_SL_params_dilations, M_SL_dilations_length]
      exact hi
    exact getD_mem _ _ _ this
  have hmask := maskDilOf_init ora X n sizes
    ((M_SL_params ora X n sizes alpha use_phase).normAt i)
    (idxOf (sortedNub (M_SL_params ora X n sizes alpha use_phase).dilations)
      ((M_SL_params ora X n sizes alpha use_phase).dilAt i))
    (by rwa [M_SL_params_dilations] at hid)
  have hmem : ((0, 0) : ℕ × ℕ) ∈ candidatePairs
      (maskDilOf (M_SL_init_state ora X n sizes)
        ((M_SL_params ora X n sizes alpha use_phase).normAt i)
        (idxOf (sortedNub (M_SL_params ora X n sizes alpha use_phase).dilations)
          ((M_SL_params ora X n sizes alpha use_phase).dilAt i)))
      (M_SL_params ora X n sizes alpha use_phase) i := by
    rw [mem_candidatePairs]
    refine ⟨by rw [M_SL_params_n_samples]; exact hnS, hstop, ?_⟩
    rw [hmask, M_SL_params_n_features, countAvail_replicate _ _ _ _ _ hnS hT]
    rw [alphaCond_iff]
    have hnc : (M_SL_params ora X n sizes alpha use_phase).ncAt i
        ≤ (X.headD []).length := by
      rw [M_SL_params_ncAt _ _ _ _ _ _ _ hi]
      have := hwf.2.1 i
      omega
    calc ((M_SL_params ora X n sizes alpha use_phase).ncAt i : ℚ) * alpha
        ≤ ((M_SL_params ora X n sizes alpha use_phase).ncAt i : ℚ) * 1 :=
          mul_le_mul_of_nonneg_left hα1 (by positivity)
      _ = ((M_SL_params ora X n sizes alpha use_phase).ncAt i : ℚ) := by ring
      _ ≤ (((X.headD []).length : ℕ) : ℚ) := by exact_mod_cast hnc
  rw [hnil] at hmem
  exact absurd hmem (List.not_mem_nil _)

theorem applyGroupStep_fst (sqrt' : ℚ → ℚ) (S : ShapeletSet) (a1 a2 : List ℕ)
    (n : ℕ) (use_phase : Bool) (acc : List (List ℚ) × List ℚ)
    (combo : ℕ × ℕ) :
    (applyGroupStep sqrt' S a1 a2 n use_phase acc combo).1 = acc.1 := by
  simp only [applyGroupStep]
  split <;> rfl

theorem length_foldl_writeSlice {α : Type} (l : List ℕ) (g : ℕ → ℕ)
    (f : ℕ → List α) (r : List α) :
    (l.foldl (fun r i => writeSlice r (g i) (f i)) r).length = r.length := by
  induction l generalizing r with
  | nil => rfl
  | cons i is ih => rw [List.foldl_cons, ih, length_writeSlice]

theorem applyGroupStep_snd_length (sqrt' : ℚ → ℚ) (S : ShapeletSet)
    (a1 a2 : List ℕ) (n : ℕ) (use_phase : Bool)
    (acc : List (List ℚ) × List ℚ) (combo : ℕ × ℕ) :
    (applyGroupStep sqrt' S a1 a2 n use_phase acc combo).2.length
      = acc.2.length := by
  simp only [applyGroupStep]
  split
  · rw [length_foldl_writeSlice, length_foldl_writeSlice]
  · rw [length_foldl_writeSlice]

theorem foldl_applyGroupStep_fst (sqrt' : ℚ → ℚ) (S : ShapeletSet)
    (a1 a2 : List ℕ) (n : ℕ) (use_phase : Bool) (combos : List (ℕ × ℕ))
    (acc : List (List ℚ) × List ℚ) :
    (combos.foldl (applyGroupStep sqrt' S a1 a2 n use_phase) acc).1
      = acc.1 := by
  induction combos generalizing acc with
  | nil => rfl
  | cons c cs ih => rw [List.foldl_cons, ih, applyGroupStep_fst]

theorem foldl_applyGroupStep_snd_length (sqrt' : ℚ → ℚ) (S : ShapeletSet)
    (a1 a2 : List ℕ) (n : ℕ) (use_phase : Bool) (combos : List (ℕ × ℕ))
    (acc : List (List ℚ) × List ℚ) :
    (combos.foldl (applyGroupStep sqrt' S a1 a2 n use_phase) acc).2.length
      = acc.2.length := by
  induction combos generalizing acc with
  | nil => rfl
  | cons c cs ih => rw [List.foldl_cons, ih, applyGroupStep_snd_length]

theorem M_SL_params_use_phase (ora : RandOracle) (X : SeriesTensor) (n : ℕ)
    (sizes : List ℕ) (alpha : ℚ) (use_phase : Bool) :
    (M_SL_params ora X n sizes alpha use_phase).use_phase = use_phase := rfl

theorem M_SL_params_n_timestamps (ora : RandOracle) (X : SeriesTensor)
    (n : ℕ) (sizes : List ℕ) (alpha : ℚ) (use_phase : Bool) :
    (M_SL_params ora X n sizes alpha use_phase).n_timestamps
      = ((X.headD []).headD []).length := rfl

/-- C1: `M_SL_apply_all_shapelets` only reads the series tensor and the
shapelet set and writes the output feature matrix: threading both inputs
through every per-sample, per-group strided-window computation — including
the in-place per-window normalization for the normalized shapelet subset
of a group, which under the spec's model of `generate_strides_2D` (a pure
extractor materializing fresh windows) rebinds only the strides buffer —
the inputs returned after the run equal the initial ones, for every
tensor, shapelet set and phase flag. -/
theorem C1_apply_leaves_inputs_unchanged (sqrt' : ℚ → ℚ) (X : SeriesTensor)
    (S : ShapeletSet) (use_phase : Bool) :
    (M_SL_apply_tracked sqrt' X S use_phase).1 = (X, S) := by
  rw [M_SL_apply_tracked]
  have hmap : ((X.map (fun sample =>
      (combinations_1d S.lengths S.dilations).foldl
        (applyGroupStep sqrt' S (M_SL_offsets_values S.n_channels S.lengths)
          (M_SL_offsets_channels S.n_channels) S.lengths.length use_phase)
        (sample, List.replicate (3 * S.lengths.length) 0))).map Prod.fst)
      = X := by
    rw [List.map_map]
    conv_rhs => rw [← List.map_id X]
    refine List.map_congr_left ?_
    intro sample _
    exact foldl_applyGroupStep_fst _ _ _ _ _ _ _ _
  rw [hmap]

/-- C5: for every series tensor, shapelet set and phase flag, the feature
matrix returned by `M_SL_apply_all_shapelets` has exactly `n_series` rows
and `3 * n_shapelets` columns — including the `n_shapelets = 0` case
(rows of length 0) and the single-series case. -/
theorem C5_apply_output_shape (sqrt' : ℚ → ℚ) (X : SeriesTensor)
    (S : ShapeletSet) (use_phase : Bool) :
    (M_SL_apply_all_shapelets sqrt' X S use_phase).length = X.length ∧
    ∀ row ∈ M_SL_apply_all_shapelets sqrt' X S use_phase,
      row.length = 3 * S.lengths.length := by
  constructor
  · rw [M_SL_apply_all_shapelets, M_SL_apply_tracked]
    simp
  · intro row hrow
    rw [M_SL_apply_all_shapelets, M_SL_apply_tracked] at hrow
    simp only [List.mem_map] at hrow
    rcases hrow with ⟨res, hres, hrow⟩
    rcases hres with ⟨sample, _, rfl⟩
    rw [← hrow, foldl_applyGroupStep_snd_length]
    exact List.length_replicate _ _

/-- C5 witness: a concrete single-series tensor with a one-shapelet set
has a 1-row, 3-column feature matrix. -/
theorem C5_apply_output_shape_witness :
    (M_SL_apply_all_shapelets (fun q => q) [[[0, 1, 2, 3]]]
      (ShapeletSet.mk [0, 1] [2] [1] [0] [false] [1] [0]) false).length
        = ([[[0, 1, 2, 3]]] : SeriesTensor).length ∧
    ∀ row ∈ M_SL_apply_all_shapelets (fun q => q) [[[0, 1, 2, 3]]]
      (ShapeletSet.mk [0, 1] [2] [1] [0] [false] [1] [0]) false,
      row.length = 3 * ([2] : List ℕ).length :=
  C5_apply_output_shape (fun q => q) [[[0, 1, 2, 3]]]
    (ShapeletSet.mk [0, 1] [2] [1] [0] [false] [1] [0]) false

/-- C9: the offset arrays are prefix sums — for every shapelet `i`,
`values_offset[i+1] - values_offset[i] = channel_count[i] * length[i]` and
`channel_offset[i+1] - channel_offset[i] = channel_count[i]`; the same
functions `M_SL_offsets_values` and `M_SL_offsets_channels` are the ones
the generation loop (lines 130-131) and the application loop
(lines 223-225) both compute their slice indexing from. -/
theorem C9_offsets_prefix_sum_invariant (n_channels lengths : List ℕ)
    (i : ℕ) (h1 : i < n_channels.length) (h2 : i < lengths.length) :
    (M_SL_offsets_values n_channels lengths).getD (i + 1) 0
        - (M_SL_offsets_values n_channels lengths).getD i 0
      = n_channels.getD i 0 * lengths.getD i 0 ∧
    (M_SL_offsets_channels n_channels).getD (i + 1) 0
        - (M_SL_offsets_channels n_channels).getD i 0
      = n_channels.getD i 0 := by
  constructor
  · rw [M_SL_offsets_values,
      scanl_add_getD_succ _ _ i (by rw [List.length_zipWith]; omega),
      getD_zipWith_mul _ _ i h1 h2]
    omega
  · rw [M_SL_offsets_channels, scanl_add_getD_succ _ _ i h1]
    omega

/-- C9 witness: the offset invariant at a concrete two-shapelet buffer. -/
theorem C9_offsets_prefix_sum_invariant_witness :
    (M_SL_offsets_values [2, 1] [3, 4]).getD 1 0
        - (M_SL_offsets_values [2, 1] [3, 4]).getD 0 0
      = ([2, 1] : List ℕ).getD 0 0 * ([3, 4] : List ℕ).getD 0 0 ∧
    (M_SL_offsets_channels [2, 1]).getD 1 0
        - (M_SL_offsets_channels [2, 1]).getD 0 0
      = ([2, 1] : List ℕ).getD 0 0 :=
  C9_offsets_prefix_sum_invariant [2, 1] [3, 4] 0 (by decide) (by decide)

/-- C3 (code bug): the admissibility occupancy structure is never updated.
For every input, oracle and configuration, the `mask_sampling` occupancy
structure after the entire generation run still equals the all-true
initial mask of line 127: no `(sample, channel, position)` region is ever
marked unavailable after a successful draw, so `alpha` never constrains
how much later shapelets may overlap earlier ones. -/
theorem C3_occupancy_mask_never_updated (sqrt' : ℚ → ℚ) (ora : RandOracle)
    (X : SeriesTensor) (y : List ℕ) (n : ℕ) (sizes : List ℕ)
    (p_norm p_min p_max alpha : ℚ) (use_phase : Bool) (maxc : ℕ)
    (prime_scheme : Bool) :
    (M_SL_gen_state sqrt' ora X y n sizes p_norm p_min p_max alpha use_phase
      maxc prime_scheme).mask_sampling
      = initMask (sortedNub (M_SL_dilations ora n)).length X.length
          (X.headD []).length ((X.headD []).headD []).length := by
  have h := (M_SL_gen_state_mask_inv sqrt' ora X y n sizes p_norm p_min p_max
    alpha use_phase maxc prime_scheme).1
  rw [h]
  rfl

/-- C6: two `generate` calls with identical seed and identical inputs
produce identical results — the shapelet-set buffers (values, lengths,
dilations, threshold, normalize, channel counts, channel ids) and the
provenance arrays (source sample indices and start positions) — because
all randomness is derived from the generator seeded once at entry. -/
theorem C6_generate_deterministic (sqrt' : ℚ → ℚ) (X1 X2 : SeriesTensor)
    (y : List ℕ) (n : ℕ) (sizes : List ℕ) (seed1 seed2 : ℕ)
    (p_norm p_min p_max alpha : ℚ) (use_phase : Bool) (maxc : ℕ)
    (prime_scheme : Bool) (hseed : seed1 = seed2) (hX : X1 = X2) :
    M_SL_generate_seeded sqrt' X1 y n sizes seed1 p_norm p_min p_max alpha
      use_phase maxc prime_scheme
      = M_SL_generate_seeded sqrt' X2 y n sizes seed2 p_norm p_min p_max
        alpha use_phase maxc prime_scheme := by
  rw [hseed, hX]

/-- C6 witness: two runs at the same concrete seed and tensor agree. -/
theorem C6_generate_deterministic_witness :
    M_SL_generate_seeded (fun q => q) [[[0, 1, 2, 3]]] [0] 1 [2] 42 0 0 0 1
      false 1 false
      = M_SL_generate_seeded (fun q => q) [[[0, 1, 2, 3]]] [0] 1 [2] 42 0 0 0
        1 false 1 false :=
  C6_generate_deterministic (fun q => q) [[[0, 1, 2, 3]]] [[[0, 1, 2, 3]]]
    [0] 1 [2] 42 42 0 0 0 1 false 1 false rfl rfl

/-- C7: in the unrestricted dilation scheme, for every exponent `e` the
uniform draw on `[0, upper]` can produce (with
`upper = log2(floor((T-1)/(L-1)))` as at line 70), the resulting dilation
`floor(2 ** e)` satisfies `1 ≤ dilation` and
`(L-1) * dilation ≤ T-1`, keeping the window in-bounds without phase
wrap. -/
theorem C7_dilation_formula_bounds (T L : ℕ) (hL : 2 ≤ L) (hLT : L ≤ T)
    (e : ℝ) (he0 : 0 ≤ e) (he1 : e ≤ M_SL_upper_bound T L) :
    1 ≤ M_SL_dilation_of_power e ∧
    ((L : ℤ) - 1) * M_SL_dilation_of_power e ≤ (T : ℤ) - 1 := by
  have hF1 : 1 ≤ (T - 1) / (L - 1) := by
    rw [Nat.one_le_div_iff (by omega)]
    omega
  have hFpos : (0 : ℝ) < (((T - 1) / (L - 1) : ℕ) : ℝ) := by
    exact_mod_cast Nat.lt_of_lt_of_le Nat.zero_lt_one hF1
  have h2e1 : (1 : ℝ) ≤ (2 : ℝ) ^ e := by
    rw [← Real.rpow_zero 2]
    exact (Real.rpow_le_rpow_left_iff one_lt_two).mpr he0
  have h2e2 : (2 : ℝ) ^ e ≤ (((T - 1) / (L - 1) : ℕ) : ℝ) := by
    calc (2 : ℝ) ^ e ≤ (2 : ℝ) ^ M_SL_upper_bound T L :=
          (Real.rpow_le_rpow_left_iff one_lt_two).mpr he1
      _ = (((T - 1) / (L - 1) : ℕ) : ℝ) := by
          rw [M_SL_upper_bound]
          exact Real.rpow_logb (by norm_num) (by norm_num) hFpos
  have hd1 : 1 ≤ M_SL_dilation_of_power e := by
    rw [M_SL_dilation_of_power]
    exact Int.le_floor.mpr (by exact_mod_cast h2e1)
  have hdF : M_SL_dilation_of_power e ≤ (((T - 1) / (L - 1) : ℕ) : ℤ) := by
    rw [M_SL_dilation_of_power]
    calc ⌊(2 : ℝ) ^ e⌋ ≤ ⌊(((T - 1) / (L - 1) : ℕ) : ℝ)⌋ :=
          Int.floor_le_floor h2e2
      _ = (((T - 1) / (L - 1) : ℕ) : ℤ) := Int.floor_natCast _
  refine ⟨hd1, ?_⟩
  have hmul : (T - 1) / (L - 1) * (L - 1) ≤ T - 1 :=
    Nat.div_mul_le_self (T - 1) (L - 1)
  have hcast : ((((T - 1) / (L - 1)) * (L - 1) : ℕ) : ℤ) ≤ ((T - 1 : ℕ) : ℤ) := by
    exact_mod_cast hmul
  have hstep : ((L : ℤ) - 1) * M_SL_dilation_of_power e
      ≤ ((L : ℤ) - 1) * (((T - 1) / (L - 1) : ℕ) : ℤ) :=
    mul_le_mul_of_nonneg_left hdF (by omega)
  have hLc : ((L - 1 : ℕ) : ℤ) = (L : ℤ) - 1 := by omega
  have hTc : ((T - 1 : ℕ) : ℤ) = (T : ℤ) - 1 := by omega
  rw [Nat.cast_mul, hLc, hTc, mul_comm] at hcast
  linarith

/-- C7 witness: the bounds at `T = 10`, `L = 2`, exponent `e = 0`. -/
theorem C7_dilation_formula_bounds_witness :
    1 ≤ M_SL_dilation_of_power 0 ∧
    ((2 : ℤ) - 1) * M_SL_dilation_of_power 0 ≤ (10 : ℤ) - 1 :=
  C7_dilation_formula_bounds 10 2 (by norm_num) (by norm_num) 0 le_rfl
    (by
      rw [M_SL_upper_bound]
      exact Real.logb_nonneg one_lt_two (by norm_num))

theorem stopAt_no_phase (P : GenParams) (i : ℕ) (hphase : P.use_phase = false)
    (hL : 1 ≤ P.lenAt i)
    (hbound : (P.lenAt i - 1) * P.dilAt i < P.n_timestamps) :
    P.stopAt i = P.n_timestamps - (P.lenAt i - 1) * P.dilAt i := by
  rw [GenParams.stopAt, GenParams.dShape, hphase]
  rw [if_neg Bool.false_ne_true]
  have hm : ((P.lenAt i : ℤ) - 1) * (P.dilAt i : ℤ)
      = (((P.lenAt i - 1) * P.dilAt i : ℕ) : ℤ) := by
    rw [Nat.cast_mul]
    congr 1
    omega
  rw [hm, sliceStop]
  split <;> omega

/-- C8: without phase invariance the maximum valid start index for
shapelet `i` is exactly `T - (L-1)*d - 1`: every candidate
`(sample, position)` pair of the generation loop has
`position + (L-1)*d < T`, and the recorded start position of every
populated shapelet satisfies the same bound. -/
theorem C8_start_position_bound (sqrt' : ℚ → ℚ) (ora : RandOracle)
    (X : SeriesTensor) (y : List ℕ) (n : ℕ) (sizes : List ℕ)
    (p_norm p_min p_max alpha : ℚ) (maxc : ℕ) (prime_scheme : Bool) (i : ℕ)
    (hi : i < n)
    (hL : 1 ≤ (M_SL_params ora X n sizes alpha false).lenAt i)
    (hbound : ((M_SL_params ora X n sizes alpha false).lenAt i - 1)
        * (M_SL_params ora X n sizes alpha false).dilAt i
      < ((X.headD []).headD []).length) :
    (∀ q ∈ M_SL_cands ora X n sizes alpha false i,
      q.2 + ((M_SL_params ora X n sizes alpha false).lenAt i - 1)
          * (M_SL_params ora X n sizes alpha false).dilAt i
        < ((X.headD []).headD []).length) ∧
    (M_SL_cands ora X n sizes alpha false i ≠ [] →
      (M_SL_gen_state sqrt' ora X y n sizes p_norm p_min p_max alpha false
          maxc prime_scheme).start_positions.getD i 0
        + ((M_SL_params ora X n sizes alpha false).lenAt i - 1)
          * (M_SL_params ora X n sizes alpha false).dilAt i
        < ((X.headD []).headD []).length) := by
  have hstop : (M_SL_params ora X n sizes alpha false).stopAt i
      = ((X.headD []).headD []).length
        - ((M_SL_params ora X n sizes alpha false).lenAt i - 1)
          * (M_SL_params ora X n sizes alpha false).dilAt i := by
    rw [stopAt_no_phase _ _ (M_SL_params_use_phase _ _ _ _ _ _) hL
      (by rwa [M_SL_params_n_timestamps]), M_SL_params_n_timestamps]
  constructor
  · intro q hq
    simp only [M_SL_cands] at hq
    rw [← Prod.mk.eta (p := q), mem_candidatePairs] at hq
    have := hq.2.1
    rw [hstop] at this
    omega
  · intro hne
    rcases M_SL_gen_state_start_bound sqrt' ora X y n sizes p_norm p_min
        p_max alpha false maxc prime_scheme i hi with h0 | hlt
    · rw [h0]
      have hne' : M_SL_cands ora X n sizes alpha false i ≠ [] := hne
      rcases List.exists_mem_of_ne_nil _ hne' with ⟨q, hq⟩
      simp only [M_SL_cands] at hq
      rw [← Prod.mk.eta (p := q), mem_candidatePairs] at hq
      have := hq.2.1
      rw [hstop] at this
      omega
    · rw [hstop] at hlt
      omega

/-- C8 witness: the bound at a concrete run — one shapelet of length 2 and
dilation 1 on a single-channel series of 4 timestamps. -/
theorem C8_start_position_bound_witness :
    (∀ q ∈ M_SL_cands (mkOracle 0 [2] 1) [[[0, 1, 2, 3]]] 1 [2] 1 false 0,
      q.2 + ((M_SL_params (mkOracle 0 [2] 1) [[[0, 1, 2, 3]]] 1 [2] 1
          false).lenAt 0 - 1)
          * (M_SL_params (mkOracle 0 [2] 1) [[[0, 1, 2, 3]]] 1 [2] 1
            false).dilAt 0
        < (([[[0, 1, 2, 3]]] : SeriesTensor).headD [] |>.headD []).length) ∧
    (M_SL_cands (mkOracle 0 [2] 1) [[[0, 1, 2, 3]]] 1 [2] 1 false 0 ≠ [] →
      (M_SL_gen_state (fun q => q) (mkOracle 0 [2] 1) [[[0, 1, 2, 3]]] [0] 1
          [2] 0 0 0 1 false 1 false).start_positions.getD 0 0
        + ((M_SL_params (mkOracle 0 [2] 1) [[[0, 1, 2, 3]]] 1 [2] 1
            false).lenAt 0 - 1)
          * (M_SL_params (mkOracle 0 [2] 1) [[[0, 1, 2, 3]]] 1 [2] 1
            false).dilAt 0
        < (([[[0, 1, 2, 3]]] : SeriesTensor).headD [] |>.headD []).length) :=
  C8_start_position_bound (fun q => q) (mkOracle 0 [2] 1) [[[0, 1, 2, 3]]]
    [0] 1 [2] 0 0 0 1 1 false 0 (by decide) (by decide) (by decide)

/-- C10: when the configuration is valid — well-formed draws,
`max_channels ≤ n_features`, `alpha ∈ [0,1]`, at least one sample, and at
least one valid start position for every sampled `(length, dilation)`
pair — the no-admissible-candidate branch is unreachable: generation
completes without error, the occupancy mask stays all-true, and the
candidate set is non-empty for every requested shapelet. -/
theorem C10_valid_config_no_degenerate (sqrt' : ℚ → ℚ) (ora : RandOracle)
    (X : SeriesTensor) (y : List ℕ) (n : ℕ) (sizes : List ℕ)
    (p_norm p_min p_max alpha : ℚ) (use_phase : Bool) (maxc : ℕ)
    (prime_scheme : Bool)
    (hwf : RandOracle.WF ora sizes maxc (X.headD []).length)
    (hmc : maxc ≤ (X.headD []).length)
    (hα0 : 0 ≤ alpha) (hα1 : alpha ≤ 1) (hnS : 0 < X.length)
    (hstop : ∀ i, i < n →
      0 < (M_SL_params ora X n sizes alpha use_phase).stopAt i) :
    (∃ r, M_SL_generate_full sqrt' ora X y n sizes p_norm p_min p_max alpha
      use_phase maxc prime_scheme = Except.ok r) ∧
    (M_SL_gen_state sqrt' ora X y n sizes p_norm p_min p_max alpha use_phase
      maxc prime_scheme).mask_sampling
      = initMask (sortedNub (M_SL_dilations ora n)).length X.length
          (X.headD []).length ((X.headD []).headD []).length ∧
    ∀ i, i < n → M_SL_cands ora X n sizes alpha use_phase i ≠ [] := by
  refine ⟨M_SL_generate_total sqrt' ora X y n sizes p_norm p_min p_max alpha
      use_phase maxc prime_scheme hwf hmc, ?_,
    fun i hi => M_SL_cands_nonempty ora X n sizes alpha use_phase maxc i hi
      hnS hwf hmc hα0 hα1 (hstop i hi)⟩
  have h := (M_SL_gen_state_mask_inv sqrt' ora X y n sizes p_norm p_min
    p_max alpha use_phase maxc prime_scheme).1
  rw [h]
  rfl

/-- C10 witness: the conclusion at a concrete valid configuration. -/
theorem C10_valid_config_no_degenerate_witness :
    (∃ r, M_SL_generate_full (fun q => q) (mkOracle 0 [2] 1) [[[0, 1, 2, 3]]]
      [0] 1 [2] 0 0 0 1 false 1 false = Except.ok r) ∧
    (M_SL_gen_state (fun q => q) (mkOracle 0 [2] 1) [[[0, 1, 2, 3]]] [0] 1
      [2] 0 0 0 1 false 1 false).mask_sampling
      = initMask (sortedNub (M_SL_dilations (mkOracle 0 [2] 1) 1)).length
          ([[[0, 1, 2, 3]]] : SeriesTensor).length
          (([[[0, 1, 2, 3]]] : SeriesTensor).headD []).length
          ((([[[0, 1, 2, 3]]] : SeriesTensor).headD []).headD []).length ∧
    ∀ i, i < 1 →
      M_SL_cands (mkOracle 0 [2] 1) [[[0, 1, 2, 3]]] 1 [2] 1 false i ≠ [] :=
  C10_valid_config_no_degenerate (fun q => q) (mkOracle 0 [2] 1)
    [[[0, 1, 2, 3]]] [0] 1 [2] 0 0 0 1 false 1 false
    (mkOracle_WF 0 [2] 1 1 (by decide) (by decide)) (by decide) (by decide)
    (by decide) (by decide)
    (fun i hi => by
      have hz : i = 0 := by omega
      subst hz
      decide)

/-- C2 (counterexample): there is no fail-fast validation.  With
`alpha = 2` (outside `[0,1]`) the generation run completes normally, and
with `max_channels = 5` exceeding the single available channel but zero
requested shapelets the run also completes normally — had a pre-sampling
configuration check existed, both runs would have failed before sampling. -/
theorem C2_counterexample :
    ((2 : ℚ) < 0 ∨ 1 < (2 : ℚ)) ∧
    (M_SL_generate_full (fun q => q) (mkOracle 0 [2] 1) [[[0, 1, 2, 3]]] [0]
      1 [2] 0 0 0 2 false 1 false).isOk = true ∧
    (M_SL_generate_full (fun q => q) (mkOracle 0 [2] 5) [[[0, 1, 2, 3]]] [0]
      0 [2] 0 0 0 0 false 5 false).isOk = true := by
  refine ⟨Or.inr (by norm_num), by decide, by decide⟩

/-- C2 (amended): `M_SL_generate_shapelet` performs no configuration
validation before sampling: for every `alpha` outside `[0,1]` (and any
admissible length set, even one with lengths at or beyond the timestamp
count) the run completes normally, provided only the channel draw is
satisfiable (`max_channels ≤ n_features`) — that channel draw, reached
during per-shapelet sampling, is the single failure point. -/
theorem C2_no_fail_fast_validation (sqrt' : ℚ → ℚ) (ora : RandOracle)
    (X : SeriesTensor) (y : List ℕ) (n : ℕ) (sizes : List ℕ)
    (p_norm p_min p_max alpha : ℚ) (use_phase : Bool) (maxc : ℕ)
    (prime_scheme : Bool)
    (hwf : RandOracle.WF ora sizes maxc (X.headD []).length)
    (hmc : maxc ≤ (X.headD []).length)
    (hbad : alpha < 0 ∨ 1 < alpha) :
    ∃ r, M_SL_generate_full sqrt' ora X y n sizes p_norm p_min p_max alpha
      use_phase maxc prime_scheme = Except.ok r :=
  M_SL_generate_total sqrt' ora X y n sizes p_norm p_min p_max alpha
    use_phase maxc prime_scheme hwf hmc

/-- C2 witness: completion at the concrete out-of-range `alpha = 2`. -/
theorem C2_no_fail_fast_validation_witness :
    ∃ r, M_SL_generate_full (fun q => q) (mkOracle 0 [2] 1) [[[0, 1, 2, 3]]]
      [0] 1 [2] 0 0 0 2 false 1 false = Except.ok r :=
  C2_no_fail_fast_validation (fun q => q) (mkOracle 0 [2] 1)
    [[[0, 1, 2, 3]]] [0] 1 [2] 0 0 0 2 false 1 false
    (mkOracle_WF 0 [2] 1 1 (by decide) (by decide)) (by decide)
    (Or.inr (by norm_num))

/-- C4 (counterexample): with `alpha = 2` the availability test fails
everywhere, so the single requested shapelet is skipped.  The run
completes, the shapelet's `values` and `channel_ids` slices stay zero —
and nothing is surfaced to the caller: `mask_return`, the array that could
count degenerate shapelets, is still all-true after the run (the code
never writes it) and is not part of the returned tuple. -/
theorem C4_counterexample :
    M_SL_cands (mkOracle 0 [2] 1) [[[0, 1, 2, 3]]] 1 [2] 2 false 0 = [] ∧
    (M_SL_generate_full (fun q => q) (mkOracle 0 [2] 1) [[[0, 1, 2, 3]]] [0]
      1 [2] 0 0 0 2 false 1 false).isOk = true ∧
    (M_SL_gen_state (fun q => q) (mkOracle 0 [2] 1) [[[0, 1, 2, 3]]] [0] 1
      [2] 0 0 0 2 false 1 false).values = List.replicate 2 0 ∧
    (M_SL_gen_state (fun q => q) (mkOracle 0 [2] 1) [[[0, 1, 2, 3]]] [0] 1
      [2] 0 0 0 2 false 1 false).channel_ids = List.replicate 1 0 ∧
    (M_SL_gen_state (fun q => q) (mkOracle 0 [2] 1) [[[0, 1, 2, 3]]] [0] 1
      [2] 0 0 0 2 false 1 false).mask_return = [true] := by
  refine ⟨by decide, by decide, by decide, by decide, by decide⟩

/-- C4 (amended): a shapelet for which no `(sample, position)` pair meets
the availability threshold is not an error: generation completes (given a
satisfiable channel draw) and leaves that shapelet's `values` and
`channel_ids` slices as the zero-initialized default — but the condition
is silent rather than countable by the caller: the `mask_return` array is
identically true after every run and the returned tuple carries no
degenerate-shapelet count. -/
theorem C4_skipped_shapelet_silent (sqrt' : ℚ → ℚ) (ora : RandOracle)
    (X : SeriesTensor) (y : List ℕ) (n : ℕ) (sizes : List ℕ)
    (p_norm p_min p_max alpha : ℚ) (use_phase : Bool) (maxc : ℕ)
    (prime_scheme : Bool)
    (hwf : RandOracle.WF ora sizes maxc (X.headD []).length)
    (hmc : maxc ≤ (X.headD []).length)
    (i : ℕ) (hi : i < n)
    (hskip : M_SL_cands ora X n sizes alpha use_phase i = []) :
    (∃ r, M_SL_generate_full sqrt' ora X y n sizes p_norm p_min p_max alpha
      use_phase maxc prime_scheme = Except.ok r) ∧
    (∀ k, (M_SL_gen_a1 ora n sizes).getD i 0 ≤ k →
      k < (M_SL_gen_a1 ora n sizes).getD (i + 1) 0 →
      (M_SL_gen_state sqrt' ora X y n sizes p_norm p_min p_max alpha
        use_phase maxc prime_scheme).values.getD k 0 = 0) ∧
    (∀ k, (M_SL_gen_a2 ora n).getD i 0 ≤ k →
      k < (M_SL_gen_a2 ora n).getD (i + 1) 0 →
      (M_SL_gen_state sqrt' ora X y n sizes p_norm p_min p_max alpha
        use_phase maxc prime_scheme).channel_ids.getD k 0 = 0) ∧
    (M_SL_gen_state sqrt' ora X y n sizes p_norm p_min p_max alpha use_phase
      maxc prime_scheme).mask_return = List.replicate n true :=
  ⟨M_SL_generate_total sqrt' ora X y n sizes p_norm p_min p_max alpha
      use_phase maxc prime_scheme hwf hmc,
   (M_SL_gen_state_skipped_zero sqrt' ora X y n sizes p_norm p_min p_max
      alpha use_phase maxc prime_scheme hwf i hi hskip).1,
   (M_SL_gen_state_skipped_zero sqrt' ora X y n sizes p_norm p_min p_max
      alpha use_phase maxc prime_scheme hwf i hi hskip).2,
   (M_SL_gen_state_mask_inv sqrt' ora X y n sizes p_norm p_min p_max alpha
      use_phase maxc prime_scheme).2⟩

/-- C4 witness: the amended statement at the concrete skipped-shapelet
configuration (`alpha = 2`, one shapelet, no admissible candidate). -/
theorem C4_skipped_shapelet_silent_witness :
    (∃ r, M_SL_generate_full (fun q => q) (mkOracle 1 [2] 1) [[[0, 1, 2, 3]]]
      [0] 1 [2] 0 0 0 2 false 1 false = Except.ok r) ∧
    (∀ k, (M_SL_gen_a1 (mkOracle 1 [2] 1) 1 [2]).getD 0 0 ≤ k →
      k < (M_SL_gen_a1 (mkOracle 1 [2] 1) 1 [2]).getD 1 0 →
      (M_SL_gen_state (fun q => q) (mkOracle 1 [2] 1) [[[0, 1, 2, 3]]] [0] 1
        [2] 0 0 0 2 false 1 false).values.getD k 0 = 0) ∧
    (∀ k, (M_SL_gen_a2 (mkOracle 1 [2] 1) 1).getD 0 0 ≤ k →
      k < (M_SL_gen_a2 (mkOracle 1 [2] 1) 1).getD 1 0 →
      (M_SL_gen_state (fun q => q) (mkOracle 1 [2] 1) [[[0, 1, 2, 3]]] [0] 1
        [2] 0 0 0 2 false 1 false).channel_ids.getD k 0 = 0) ∧
    (M_SL_gen_state (fun q => q) (mkOracle 1 [2] 1) [[[0, 1, 2, 3]]] [0] 1
      [2] 0 0 0 2 false 1 false).mask_return = List.replicate 1 true :=
  C4_skipped_shapelet_silent (fun q => q) (mkOracle 1 [2] 1)
    [[[0, 1, 2, 3]]] [0] 1 [2] 0 0 0 2 false 1 false
    (mkOracle_WF 1 [2] 1 1 (by decide) (by decide)) (by decide) 0
    (by decide) (by decide)
